import Mathlib

/-!
# Security features of the dual-interface NIC firmware

A shallow embedding of `firmware/security_features.h`:

* `MACFilter` : the allow / deny lists of hardware addresses and the mode flag;
* `PacketInspector` : the stateless frame inspection (protocol and port blocking);
* `VPNEncryption` : the block-wise in-place cipher layer on top of the AES primitive.

Conventions of the embedding.

* A `uint8_t` is a `Fin 256`; a `uint16_t` value is a natural number built from two bytes.
* A C array with a separate element count is an index function together with the count
  (`allowedMACs`, `allowedCount`); the counts are private `int`s that start at `0` and are only
  ever incremented behind a capacity check, so they are natural numbers here.
* A `for` loop with an early `return` over the first `n` slots is `List.any` over `List.range n`.
* A pointer to a caller-supplied buffer is a `List Byte`; a read or write outside the list is
  `none` (the C behaviour is undefined there).
* `int` arithmetic that can leave the 32-bit range is wrapped explicitly (`wrapInt32`).
* The `Serial` diagnostics are not part of any result and are left out.
-/

namespace NIC

/-- One `uint8_t`. -/
abbrev Byte := Fin 256

/-- A hardware address, `uint8_t[6]`. -/
abbrev MAC := Fin 6 → Byte

/-- The C call `memcmp(a, b, 6)` on two 6-byte regions: the difference of the first pair of
bytes that differ, `0` when all six agree. -/
def memcmp6 (a b : MAC) : Int :=
  match (List.finRange 6).find? (fun i => a i != b i) with
  | some i => ((a i).val : Int) - ((b i).val : Int)
  | none => 0

/-! ## 1. MAC address filtering -/

/-- Capacity of the allowed list, `#define MAX_ALLOWED_MACS 10`. -/
def MAX_ALLOWED_MACS : Nat := 10

/-- Capacity of the blocked list, `#define MAX_BLOCKED_MACS 10`. -/
def MAX_BLOCKED_MACS : Nat := 10

/-- The private fields of `class MACFilter`. -/
structure MACFilter where
  /-- Field `uint8_t allowedMACs[MAX_ALLOWED_MACS][6]`, by slot. -/
  allowedMACs : Nat → MAC
  /-- Field `uint8_t blockedMACs[MAX_BLOCKED_MACS][6]`, by slot. -/
  blockedMACs : Nat → MAC
  /-- Field `int allowedCount = 0`. -/
  allowedCount : Nat
  /-- Field `int blockedCount = 0`. -/
  blockedCount : Nat
  /-- Field `bool whitelistMode = false`: `false` is blacklist mode, `true` is whitelist mode. -/
  whitelistMode : Bool

namespace MACFilter

/-- A freshly constructed filter: both counts `0`, blacklist mode. The arrays have no
initialiser in the source; `garbageA` and `garbageB` stand for whatever they hold. -/
def init (garbageA garbageB : Nat → MAC) : MACFilter :=
  { allowedMACs := garbageA, blockedMACs := garbageB,
    allowedCount := 0, blockedCount := 0, whitelistMode := false }

/-- Method `bool addAllowedMAC(const uint8_t* mac)`: result and state afterwards. -/
def addAllowedMAC (s : MACFilter) (mac : MAC) : Bool × MACFilter :=
  if s.allowedCount ≥ MAX_ALLOWED_MACS then (false, s)
  else
    (true, { s with
      allowedMACs := Function.update s.allowedMACs s.allowedCount mac,
      allowedCount := s.allowedCount + 1 })

/-- Method `bool addBlockedMAC(const uint8_t* mac)`: result and state afterwards. -/
def addBlockedMAC (s : MACFilter) (mac : MAC) : Bool × MACFilter :=
  if s.blockedCount ≥ MAX_BLOCKED_MACS then (false, s)
  else
    (true, { s with
      blockedMACs := Function.update s.blockedMACs s.blockedCount mac,
      blockedCount := s.blockedCount + 1 })

/-- The first loop of `isAllowed`: some slot `i < blockedCount` compares equal to `mac`. -/
def blockedHit (s : MACFilter) (mac : MAC) : Bool :=
  (List.range s.blockedCount).any (fun i => memcmp6 (s.blockedMACs i) mac == 0)

/-- The second loop of `isAllowed`: some slot `i < allowedCount` compares equal to `mac`. -/
def allowedHit (s : MACFilter) (mac : MAC) : Bool :=
  (List.range s.allowedCount).any (fun i => memcmp6 (s.allowedMACs i) mac == 0)

/-- Method `bool isAllowed(const uint8_t* mac)`. -/
def isAllowed (s : MACFilter) (mac : MAC) : Bool :=
  if s.blockedHit mac then false
  else if s.whitelistMode then
    if s.allowedHit mac then true else false
  else true

/-- Method `void setWhitelistMode(bool enabled)`. -/
def setWhitelistMode (s : MACFilter) (enabled : Bool) : MACFilter :=
  { s with whitelistMode := enabled }

/-- Membership in the blocked list: `a` is one of the first `blockedCount` entries. -/
def InBlocked (s : MACFilter) (a : MAC) : Prop :=
  ∃ i, i < s.blockedCount ∧ s.blockedMACs i = a

/-- Membership in the allowed list: `a` is one of the first `allowedCount` entries. -/
def InAllowed (s : MACFilter) (a : MAC) : Prop :=
  ∃ i, i < s.allowedCount ∧ s.allowedMACs i = a

end MACFilter

/-! ## 2. Packet inspection -/

/-- The two bytes at an address read as a `uint16_t` by the little-endian target. -/
def loadU16 (b0 b1 : Byte) : Nat := b0.val + 256 * b1.val

/-- The byte swap `ntohs` of a little-endian host. -/
def ntohs (x : Nat) : Nat := (x % 256) * 256 + (x / 256) % 256

/-- Read of `*(uint16_t*)(packet + off)`; `none` when either byte is outside the buffer. -/
def readU16 (packet : List Byte) (off : Nat) : Option Nat :=
  match packet[off]?, packet[off + 1]? with
  | some b0, some b1 => some (loadU16 b0 b1)
  | _, _ => none

/-- Protocol numbers, `enum Protocol { ICMP = 1, TCP = 6, UDP = 17 }`. -/
inductive Protocol where
  | ICMP
  | TCP
  | UDP
  deriving DecidableEq, Repr

/-- The numeric value of an enumerator. -/
def Protocol.toNat : Protocol → Nat
  | .ICMP => 1
  | .TCP => 6
  | .UDP => 17

/-- The private fields of `class PacketInspector`. -/
structure PacketInspector where
  /-- Field `bool blockICMP = false`. -/
  blockICMP : Bool
  /-- Field `bool blockUDP = false`. -/
  blockUDP : Bool
  /-- Field `bool blockTCP = false`. -/
  blockTCP : Bool
  /-- Field `uint16_t blockedPorts[20]`, by slot. -/
  blockedPorts : Nat → Nat
  /-- Field `int blockedPortCount = 0`. -/
  blockedPortCount : Nat

namespace PacketInspector

/-- A freshly constructed inspector: nothing blocked, no ports. The port array has no
initialiser in the source; `garbage` stands for whatever it holds. -/
def init (garbage : Nat → Nat) : PacketInspector :=
  { blockICMP := false, blockUDP := false, blockTCP := false,
    blockedPorts := garbage, blockedPortCount := 0 }

/-- Method `bool isPortBlocked(uint16_t port)`. -/
def isPortBlocked (s : PacketInspector) (port : Nat) : Bool :=
  (List.range s.blockedPortCount).any (fun i => s.blockedPorts i == port)

/-- Method `bool inspectPacket(const uint8_t* packet, int length)`. `EthernetFrame::etherType`
sits at byte offset 12 and `IPPacket::protocol` at offset 9 of the header that starts at 14. -/
def inspectPacket (s : PacketInspector) (packet : List Byte) (length : Int) : Option Bool :=
  if length < 14 then some false
  else
    match readU16 packet 12 with
    | none => none
    | some rawType =>
      let etherType := ntohs rawType
      if etherType = 0x0800 then
        if length < 34 then some false
        else
          match packet[23]? with
          | none => none
          | some protocol =>
            if s.blockICMP && protocol.val == Protocol.ICMP.toNat then some false
            else if s.blockUDP && protocol.val == Protocol.UDP.toNat then some false
            else if s.blockTCP && protocol.val == Protocol.TCP.toNat then some false
            else if protocol.val == Protocol.TCP.toNat || protocol.val == Protocol.UDP.toNat then
              if length ≥ 38 then
                match readU16 packet 36 with
                | none => none
                | some rawPort =>
                  let destPort := ntohs rawPort
                  if s.isPortBlocked destPort then some false else some true
              else some true
            else some true
      else some true

/-- Method `void blockProtocol(Protocol proto, bool block)`. -/
def blockProtocol (s : PacketInspector) (proto : Protocol) (block : Bool) : PacketInspector :=
  match proto with
  | .ICMP => { s with blockICMP := block }
  | .TCP => { s with blockTCP := block }
  | .UDP => { s with blockUDP := block }

/-- Method `bool addBlockedPort(uint16_t port)`: result and state afterwards. -/
def addBlockedPort (s : PacketInspector) (port : Nat) : Bool × PacketInspector :=
  if s.blockedPortCount ≥ 20 then (false, s)
  else
    (true, { s with
      blockedPorts := Function.update s.blockedPorts s.blockedPortCount port,
      blockedPortCount := s.blockedPortCount + 1 })

/-- Membership in the blocked-port list: one of the first `blockedPortCount` entries. -/
def InBlockedPorts (s : PacketInspector) (port : Nat) : Prop :=
  ∃ i, i < s.blockedPortCount ∧ s.blockedPorts i = port

end PacketInspector

/-- The 16-bit field at offsets `off`, `off + 1` of a frame, read big-endian. -/
def be16 (packet : List Byte) (off : Nat) : Nat :=
  (packet.getD off 0).val * 256 + (packet.getD (off + 1) 0).val

/-! ## 3. VPN support -/

/-- A 16-byte cipher block, `unsigned char[16]`. -/
abbrev Block := { l : List Byte // l.length = 16 }

/-- The `mode` argument of the block operation. -/
inductive AesMode where
  | MBEDTLS_AES_DECRYPT
  | MBEDTLS_AES_ENCRYPT
  deriving DecidableEq, Repr

/-- The AES primitive behind `#include "mbedtls/aes.h"`. The library is not part of the
repository, so the class is embedded over any implementation of the four calls it makes. -/
structure AesLibrary where
  /-- Type `mbedtls_aes_context`. -/
  Context : Type
  /-- The context left by `mbedtls_aes_init(&ctx)`. -/
  mbedtls_aes_init : Context
  /-- The context left by `mbedtls_aes_free(&ctx)`. -/
  mbedtls_aes_free : Context → Context
  /-- The call `mbedtls_aes_setkey_enc(&ctx, key, 256)`, the only key size the class passes:
  the result code and the context afterwards. -/
  mbedtls_aes_setkey_enc : Context → List Byte → Int × Context
  /-- The call `mbedtls_aes_crypt_ecb(&ctx, mode, input, output)`: the 16 output bytes. The
  class ignores the result code. -/
  mbedtls_aes_crypt_ecb : Context → AesMode → Block → Block

/-- The private fields of `class VPNEncryption`. -/
structure VPNEncryption (L : AesLibrary) where
  /-- Field `mbedtls_aes_context aes_ctx`. -/
  aes_ctx : L.Context
  /-- Field `uint8_t key[32]`. -/
  key : List Byte
  /-- Field `bool enabled = false`. -/
  enabled : Bool

/-- A value of C type `int` after an operation that may leave the 32-bit range. -/
def wrapInt32 (x : Int) : Int := (x + 2147483648) % 4294967296 - 2147483648

namespace VPNEncryption

variable {L : AesLibrary}

/-- Constructor `VPNEncryption()`: the context is initialised, the cipher is disabled. The
key array has no initialiser in the source; `garbageKey` stands for whatever it holds. -/
def init (L : AesLibrary) (garbageKey : List Byte) : VPNEncryption L :=
  { aes_ctx := L.mbedtls_aes_init, key := garbageKey, enabled := false }

/-- Destructor `~VPNEncryption()`: the fields as the destructor body leaves them. -/
def destroy (s : VPNEncryption L) : VPNEncryption L :=
  { s with aes_ctx := L.mbedtls_aes_free s.aes_ctx }

/-- Method `bool setKey(const uint8_t* newKey, size_t keyLen)`: result and state afterwards;
`none` when `memcpy` would read past the end of `newKey`. -/
def setKey (s : VPNEncryption L) (newKey : List Byte) (keyLen : Nat) :
    Option (Bool × VPNEncryption L) :=
  if keyLen ≠ 32 then some (false, s)
  else if newKey.length < 32 then none
  else
    let key := newKey.take 32
    let r := L.mbedtls_aes_setkey_enc s.aes_ctx key
    if r.1 ≠ 0 then some (false, { s with key := key, aes_ctx := r.2 })
    else some (true, { key := key, aes_ctx := r.2, enabled := true })

/-- One call `mbedtls_aes_crypt_ecb(&aes_ctx, mode, packet + i, packet + i)`: the buffer
afterwards; `none` when the 16 bytes at offset `i` are not all inside the buffer. -/
def cryptBlockAt (L : AesLibrary) (ctx : L.Context) (mode : AesMode) (packet : List Byte)
    (i : Int) : Option (List Byte) :=
  if h : 0 ≤ i ∧ i.toNat + 16 ≤ packet.length then
    some (packet.take i.toNat ++
      (L.mbedtls_aes_crypt_ecb ctx mode
        ⟨(packet.drop i.toNat).take 16, by
          rw [List.length_take, List.length_drop]; omega⟩).val ++
      packet.drop (i.toNat + 16))
  else none

/-- The loop `for (int i = ...; i < bound; i += 16)` around the block call, from the current
`i`. A pass needs 16 more bytes of the buffer, so `packet.length / 16 + 1` units of fuel are
never used up before the loop ends or leaves the buffer. -/
def cryptLoop (L : AesLibrary) (ctx : L.Context) (mode : AesMode) (bound : Int) :
    Nat → Int → List Byte → Option (List Byte)
  | 0, i, packet => if i < bound then none else some packet
  | fuel + 1, i, packet =>
    if i < bound then
      match cryptBlockAt L ctx mode packet i with
      | none => none
      | some packet1 => cryptLoop L ctx mode bound fuel (wrapInt32 (i + 16)) packet1
    else some packet

/-- Method `bool encryptPacket(uint8_t* packet, int length)`: result and buffer afterwards.
`(length + 15) / 16` is the truncating C division; the quotient and its product with 16 stay
in the 32-bit range. -/
def encryptPacket (s : VPNEncryption L) (packet : List Byte) (length : Int) :
    Option (Bool × List Byte) :=
  if !s.enabled then some (true, packet)
  else
    let paddedLen := (Int.tdiv (wrapInt32 (length + 15)) 16) * 16
    match cryptLoop L s.aes_ctx .MBEDTLS_AES_ENCRYPT paddedLen (packet.length / 16 + 1) 0
        packet with
    | none => none
    | some packet1 => some (true, packet1)

/-- Method `bool decryptPacket(uint8_t* packet, int length)`: result and buffer afterwards. -/
def decryptPacket (s : VPNEncryption L) (packet : List Byte) (length : Int) :
    Option (Bool × List Byte) :=
  if !s.enabled then some (true, packet)
  else
    match cryptLoop L s.aes_ctx .MBEDTLS_AES_DECRYPT length (packet.length / 16 + 1) 0
        packet with
    | none => none
    | some packet1 => some (true, packet1)

/-- Method `void setEnabled(bool enable)`. -/
def setEnabled (s : VPNEncryption L) (enable : Bool) : VPNEncryption L :=
  { s with enabled := enable }

/-- Method `bool isEnabled()`. -/
def isEnabled (s : VPNEncryption L) : Bool := s.enabled

/-- The scenario of the round-trip property on one context: construct, `setKey(key, 32)`
returning true, `encryptPacket`, then `decryptPacket` on the result; the final buffer. -/
def roundTrip (L : AesLibrary) (key packet : List Byte) (length : Int) : Option (List Byte) :=
  ((init L (List.replicate 32 0)).setKey key 32).bind fun r =>
    if r.1 then
      (r.2.encryptPacket packet length).bind fun e =>
        (r.2.decryptPacket e.2 length).map Prod.snd
    else none

end VPNEncryption

/-- Block-wise transformation of a buffer: the first `m` 16-byte chunks are replaced by
their images under `f`, each chunk on its own; the rest of the buffer is kept. -/
def mapChunks (f : Block → Block) : Nat → List Byte → List Byte
  | 0, r => r
  | m + 1, r =>
    if h : 16 ≤ r.length then
      (f ⟨r.take 16, by rw [List.length_take]; omega⟩).val ++ mapChunks f m (r.drop 16)
    else r

/-! ## A sample AES for the cipher primitive

The cipher primitive is an external dependency of the firmware and the repository does not
contain it: every theorem on the cipher layer is stated over an arbitrary `AesLibrary`. This
section gives the block functions of AES-256 for use in concrete inputs, organised as in a
generic software `aes.c` (the schedule is fixed at key setup): 32-bit words are natural
numbers, the round tables are functions of the table index. The functions are checked
against the AES-256 example of FIPS-197 in both directions (`Mbedtls.encrypt_fips197`,
`Mbedtls.decrypt_fips197`). -/

namespace Mbedtls

/-- Forward S-box `FSb`. -/
def FSb : List Nat := [
    0x63, 0x7c, 0x77, 0x7b, 0xf2, 0x6b, 0x6f, 0xc5, 0x30, 0x01, 0x67, 0x2b, 0xfe, 0xd7, 0xab, 0x76,
    0xca, 0x82, 0xc9, 0x7d, 0xfa, 0x59, 0x47, 0xf0, 0xad, 0xd4, 0xa2, 0xaf, 0x9c, 0xa4, 0x72, 0xc0,
    0xb7, 0xfd, 0x93, 0x26, 0x36, 0x3f, 0xf7, 0xcc, 0x34, 0xa5, 0xe5, 0xf1, 0x71, 0xd8, 0x31, 0x15,
    0x04, 0xc7, 0x23, 0xc3, 0x18, 0x96, 0x05, 0x9a, 0x07, 0x12, 0x80, 0xe2, 0xeb, 0x27, 0xb2, 0x75,
    0x09, 0x83, 0x2c, 0x1a, 0x1b, 0x6e, 0x5a, 0xa0, 0x52, 0x3b, 0xd6, 0xb3, 0x29, 0xe3, 0x2f, 0x84,
    0x53, 0xd1, 0x00, 0xed, 0x20, 0xfc, 0xb1, 0x5b, 0x6a, 0xcb, 0xbe, 0x39, 0x4a, 0x4c, 0x58, 0xcf,
    0xd0, 0xef, 0xaa, 0xfb, 0x43, 0x4d, 0x33, 0x85, 0x45, 0xf9, 0x02, 0x7f, 0x50, 0x3c, 0x9f, 0xa8,
    0x51, 0xa3, 0x40, 0x8f, 0x92, 0x9d, 0x38, 0xf5, 0xbc, 0xb6, 0xda, 0x21, 0x10, 0xff, 0xf3, 0xd2,
    0xcd, 0x0c, 0x13, 0xec, 0x5f, 0x97, 0x44, 0x17, 0xc4, 0xa7, 0x7e, 0x3d, 0x64, 0x5d, 0x19, 0x73,
    0x60, 0x81, 0x4f, 0xdc, 0x22, 0x2a, 0x90, 0x88, 0x46, 0xee, 0xb8, 0x14, 0xde, 0x5e, 0x0b, 0xdb,
    0xe0, 0x32, 0x3a, 0x0a, 0x49, 0x06, 0x24, 0x5c, 0xc2, 0xd3, 0xac, 0x62, 0x91, 0x95, 0xe4, 0x79,
    0xe7, 0xc8, 0x37, 0x6d, 0x8d, 0xd5, 0x4e, 0xa9, 0x6c, 0x56, 0xf4, 0xea, 0x65, 0x7a, 0xae, 0x08,
    0xba, 0x78, 0x25, 0x2e, 0x1c, 0xa6, 0xb4, 0xc6, 0xe8, 0xdd, 0x74, 0x1f, 0x4b, 0xbd, 0x8b, 0x8a,
    0x70, 0x3e, 0xb5, 0x66, 0x48, 0x03, 0xf6, 0x0e, 0x61, 0x35, 0x57, 0xb9, 0x86, 0xc1, 0x1d, 0x9e,
    0xe1, 0xf8, 0x98, 0x11, 0x69, 0xd9, 0x8e, 0x94, 0x9b, 0x1e, 0x87, 0xe9, 0xce, 0x55, 0x28, 0xdf,
    0x8c, 0xa1, 0x89, 0x0d, 0xbf, 0xe6, 0x42, 0x68, 0x41, 0x99, 0x2d, 0x0f, 0xb0, 0x54, 0xbb, 0x16]

/-- Reverse S-box `RSb`. -/
def RSb : List Nat := [
    0x52, 0x09, 0x6a, 0xd5, 0x30, 0x36, 0xa5, 0x38, 0xbf, 0x40, 0xa3, 0x9e, 0x81, 0xf3, 0xd7, 0xfb,
    0x7c, 0xe3, 0x39, 0x82, 0x9b, 0x2f, 0xff, 0x87, 0x34, 0x8e, 0x43, 0x44, 0xc4, 0xde, 0xe9, 0xcb,
    0x54, 0x7b, 0x94, 0x32, 0xa6, 0xc2, 0x23, 0x3d, 0xee, 0x4c, 0x95, 0x0b, 0x42, 0xfa, 0xc3, 0x4e,
    0x08, 0x2e, 0xa1, 0x66, 0x28, 0xd9, 0x24, 0xb2, 0x76, 0x5b, 0xa2, 0x49, 0x6d, 0x8b, 0xd1, 0x25,
    0x72, 0xf8, 0xf6, 0x64, 0x86, 0x68, 0x98, 0x16, 0xd4, 0xa4, 0x5c, 0xcc, 0x5d, 0x65, 0xb6, 0x92,
    0x6c, 0x70, 0x48, 0x50, 0xfd, 0xed, 0xb9, 0xda, 0x5e, 0x15, 0x46, 0x57, 0xa7, 0x8d, 0x9d, 0x84,
    0x90, 0xd8, 0xab, 0x00, 0x8c, 0xbc, 0xd3, 0x0a, 0xf7, 0xe4, 0x58, 0x05, 0xb8, 0xb3, 0x45, 0x06,
    0xd0, 0x2c, 0x1e, 0x8f, 0xca, 0x3f, 0x0f, 0x02, 0xc1, 0xaf, 0xbd, 0x03, 0x01, 0x13, 0x8a, 0x6b,
    0x3a, 0x91, 0x11, 0x41, 0x4f, 0x67, 0xdc, 0xea, 0x97, 0xf2, 0xcf, 0xce, 0xf0, 0xb4, 0xe6, 0x73,
    0x96, 0xac, 0x74, 0x22, 0xe7, 0xad, 0x35, 0x85, 0xe2, 0xf9, 0x37, 0xe8, 0x1c, 0x75, 0xdf, 0x6e,
    0x47, 0xf1, 0x1a, 0x71, 0x1d, 0x29, 0xc5, 0x89, 0x6f, 0xb7, 0x62, 0x0e, 0xaa, 0x18, 0xbe, 0x1b,
    0xfc, 0x56, 0x3e, 0x4b, 0xc6, 0xd2, 0x79, 0x20, 0x9a, 0xdb, 0xc0, 0xfe, 0x78, 0xcd, 0x5a, 0xf4,
    0x1f, 0xdd, 0xa8, 0x33, 0x88, 0x07, 0xc7, 0x31, 0xb1, 0x12, 0x10, 0x59, 0x27, 0x80, 0xec, 0x5f,
    0x60, 0x51, 0x7f, 0xa9, 0x19, 0xb5, 0x4a, 0x0d, 0x2d, 0xe5, 0x7a, 0x9f, 0x93, 0xc9, 0x9c, 0xef,
    0xa0, 0xe0, 0x3b, 0x4d, 0xae, 0x2a, 0xf5, 0xb0, 0xc8, 0xeb, 0xbb, 0x3c, 0x83, 0x53, 0x99, 0x61,
    0x17, 0x2b, 0x04, 0x7e, 0xba, 0x77, 0xd6, 0x26, 0xe1, 0x69, 0x14, 0x63, 0x55, 0x21, 0x0c, 0x7d]

/-- Round constants `RCON`. -/
def RCON : List Nat := [0x01, 0x02, 0x04, 0x08, 0x10, 0x20, 0x40, 0x80, 0x1B, 0x36]

/-- Macro `XTIME(x)`, reduced to a byte. -/
def XTIME (x : Nat) : Nat :=
  ((x <<< 1) ^^^ (if (x &&& 0x80) = 0 then 0x00 else 0x1B)) &&& 0xFF

/-- Shift-and-add product in GF(2^8) of `a` with the low `n` bits of `b`. -/
def mulAux : Nat → Nat → Nat → Nat → Nat
  | 0, _, _, acc => acc
  | n + 1, a, b, acc =>
    mulAux n (XTIME a) (b >>> 1) (if (b &&& 1) = 0 then acc else acc ^^^ a)

/-- Macro `MUL(x, y)`: the product in GF(2^8), which the library reads off its log and pow
tables. -/
def MUL (x y : Nat) : Nat := mulAux 8 x y 0

/-- Macro `ROTL8(x)` on a 32-bit word. -/
def ROTL8 (x : Nat) : Nat := ((x <<< 8) &&& 0xFFFFFFFF) ||| (x >>> 24)

/-- Entry `FT0[i]` of the forward round table. -/
def FT0 (i : Nat) : Nat :=
  let x := FSb.getD i 0
  let y := XTIME x
  let z := (y ^^^ x) &&& 0xFF
  y ^^^ (x <<< 8) ^^^ (x <<< 16) ^^^ (z <<< 24)

def FT1 (i : Nat) : Nat := ROTL8 (FT0 i)
def FT2 (i : Nat) : Nat := ROTL8 (FT1 i)
def FT3 (i : Nat) : Nat := ROTL8 (FT2 i)

/-- Entry `RT0[i]` of the reverse round table. -/
def RT0 (i : Nat) : Nat :=
  let x := RSb.getD i 0
  (MUL 0x0E x) ^^^ ((MUL 0x09 x) <<< 8) ^^^ ((MUL 0x0D x) <<< 16) ^^^ ((MUL 0x0B x) <<< 24)

def RT1 (i : Nat) : Nat := ROTL8 (RT0 i)
def RT2 (i : Nat) : Nat := ROTL8 (RT1 i)
def RT3 (i : Nat) : Nat := ROTL8 (RT2 i)

/-- Byte `k` (0 to 3) of a 32-bit word, as the table index `( x >> 8k ) & 0xFF`. -/
def byteOf (x k : Nat) : Nat := (x >>> (8 * k)) &&& 0xFF

/-- Macro `GET_UINT32_LE(n, b, i)`. -/
def GET_UINT32_LE (b : List Byte) (i : Nat) : Nat :=
  (b.getD i 0).val ||| ((b.getD (i + 1) 0).val <<< 8) ||| ((b.getD (i + 2) 0).val <<< 16) |||
    ((b.getD (i + 3) 0).val <<< 24)

/-- Struct `mbedtls_aes_context`: the number of rounds and the round-key buffer. -/
structure aes_context where
  nr : Nat
  buf : List Nat
  deriving DecidableEq, Repr

/-- The eight words one pass of the 256-bit expansion loop appends after `RK[0..7]`. -/
def expandStep256 (rcon : Nat) (RK : List Nat) : List Nat :=
  let r := fun k => RK.getD k 0
  let RK8 := r 0 ^^^ rcon ^^^ (FSb.getD (byteOf (r 7) 1) 0) ^^^
    ((FSb.getD (byteOf (r 7) 2) 0) <<< 8) ^^^ ((FSb.getD (byteOf (r 7) 3) 0) <<< 16) ^^^
    ((FSb.getD (byteOf (r 7) 0) 0) <<< 24)
  let RK9 := r 1 ^^^ RK8
  let RK10 := r 2 ^^^ RK9
  let RK11 := r 3 ^^^ RK10
  let RK12 := r 4 ^^^ (FSb.getD (byteOf RK11 0) 0) ^^^
    ((FSb.getD (byteOf RK11 1) 0) <<< 8) ^^^ ((FSb.getD (byteOf RK11 2) 0) <<< 16) ^^^
    ((FSb.getD (byteOf RK11 3) 0) <<< 24)
  let RK13 := r 5 ^^^ RK12
  let RK14 := r 6 ^^^ RK13
  let RK15 := r 7 ^^^ RK14
  [RK8, RK9, RK10, RK11, RK12, RK13, RK14, RK15]

/-- The loop `for( i = 0; i < 7; i++, RK += 8 )` of the 256-bit key expansion: the words
written after the window `RK`. -/
def expandLoop256 : List Nat → List Nat → List Nat
  | [], _ => []
  | rcon :: rest, RK =>
    let next := expandStep256 rcon RK
    next ++ expandLoop256 rest next

/-- The call `mbedtls_aes_setkey_enc(ctx, key, 256)`: result code and context afterwards.
The call sets `nr = 14` and writes `buf[0..63]`; the last four words of the buffer keep
their content. -/
def setkey_enc256 (ctx : aes_context) (key : List Byte) : Int × aes_context :=
  let first := (List.range 8).map (fun i => GET_UINT32_LE key (i <<< 2))
  (0, { nr := 14, buf := first ++ expandLoop256 (RCON.take 7) first ++ ctx.buf.drop 64 })

/-- Macro `AES_FROUND`: one forward round with the round key at `RK[p..p+3]`. -/
def AES_FROUND (RK : List Nat) (p : Nat) (Y : Nat × Nat × Nat × Nat) : Nat × Nat × Nat × Nat :=
  match Y with
  | (Y0, Y1, Y2, Y3) =>
    (RK.getD p 0 ^^^ FT0 (byteOf Y0 0) ^^^ FT1 (byteOf Y1 1) ^^^ FT2 (byteOf Y2 2) ^^^
        FT3 (byteOf Y3 3),
      RK.getD (p + 1) 0 ^^^ FT0 (byteOf Y1 0) ^^^ FT1 (byteOf Y2 1) ^^^ FT2 (byteOf Y3 2) ^^^
        FT3 (byteOf Y0 3),
      RK.getD (p + 2) 0 ^^^ FT0 (byteOf Y2 0) ^^^ FT1 (byteOf Y3 1) ^^^ FT2 (byteOf Y0 2) ^^^
        FT3 (byteOf Y1 3),
      RK.getD (p + 3) 0 ^^^ FT0 (byteOf Y3 0) ^^^ FT1 (byteOf Y0 1) ^^^ FT2 (byteOf Y1 2) ^^^
        FT3 (byteOf Y2 3))

/-- Macro `AES_RROUND`: one reverse round with the round key at `RK[p..p+3]`. -/
def AES_RROUND (RK : List Nat) (p : Nat) (Y : Nat × Nat × Nat × Nat) : Nat × Nat × Nat × Nat :=
  match Y with
  | (Y0, Y1, Y2, Y3) =>
    (RK.getD p 0 ^^^ RT0 (byteOf Y0 0) ^^^ RT1 (byteOf Y3 1) ^^^ RT2 (byteOf Y2 2) ^^^
        RT3 (byteOf Y1 3),
      RK.getD (p + 1) 0 ^^^ RT0 (byteOf Y1 0) ^^^ RT1 (byteOf Y0 1) ^^^ RT2 (byteOf Y3 2) ^^^
        RT3 (byteOf Y2 3),
      RK.getD (p + 2) 0 ^^^ RT0 (byteOf Y2 0) ^^^ RT1 (byteOf Y1 1) ^^^ RT2 (byteOf Y0 2) ^^^
        RT3 (byteOf Y3 3),
      RK.getD (p + 3) 0 ^^^ RT0 (byteOf Y3 0) ^^^ RT1 (byteOf Y2 1) ^^^ RT2 (byteOf Y1 2) ^^^
        RT3 (byteOf Y0 3))

/-- The loop `for( i = ( ctx->nr >> 1 ) - 1; i > 0; i-- )` with two rounds per pass: the
state and the round-key position after `i` passes. -/
def roundLoop (round : List Nat → Nat → Nat × Nat × Nat × Nat → Nat × Nat × Nat × Nat)
    (RK : List Nat) : Nat → Nat → Nat × Nat × Nat × Nat → Nat × (Nat × Nat × Nat × Nat)
  | 0, p, X => (p, X)
  | i + 1, p, X => roundLoop round RK i (p + 8) (round RK (p + 4) (round RK p X))

/-- Macro `PUT_UINT32_LE` for the four state words: the 16 output bytes. -/
def putWords (X : Nat × Nat × Nat × Nat) : Block :=
  match X with
  | (X0, X1, X2, X3) =>
    ⟨[Fin.ofNat (byteOf X0 0), Fin.ofNat (byteOf X0 1), Fin.ofNat (byteOf X0 2),
      Fin.ofNat (byteOf X0 3), Fin.ofNat (byteOf X1 0), Fin.ofNat (byteOf X1 1),
      Fin.ofNat (byteOf X1 2), Fin.ofNat (byteOf X1 3), Fin.ofNat (byteOf X2 0),
      Fin.ofNat (byteOf X2 1), Fin.ofNat (byteOf X2 2), Fin.ofNat (byteOf X2 3),
      Fin.ofNat (byteOf X3 0), Fin.ofNat (byteOf X3 1), Fin.ofNat (byteOf X3 2),
      Fin.ofNat (byteOf X3 3)], rfl⟩

/-- The load of the input block xored with the first round key. -/
def loadState (RK : List Nat) (input : Block) : Nat × Nat × Nat × Nat :=
  (GET_UINT32_LE input.val 0 ^^^ RK.getD 0 0, GET_UINT32_LE input.val 4 ^^^ RK.getD 1 0,
    GET_UINT32_LE input.val 8 ^^^ RK.getD 2 0, GET_UINT32_LE input.val 12 ^^^ RK.getD 3 0)

/-- Function `mbedtls_internal_aes_encrypt`. -/
def mbedtls_internal_aes_encrypt (ctx : aes_context) (input : Block) : Block :=
  let RK := ctx.buf
  match roundLoop AES_FROUND RK ((ctx.nr >>> 1) - 1) 4 (loadState RK input) with
  | (p, X) =>
    match AES_FROUND RK p X with
    | (Y0, Y1, Y2, Y3) =>
      putWords
        (RK.getD (p + 4) 0 ^^^ FSb.getD (byteOf Y0 0) 0 ^^^ (FSb.getD (byteOf Y1 1) 0 <<< 8) ^^^
            (FSb.getD (byteOf Y2 2) 0 <<< 16) ^^^ (FSb.getD (byteOf Y3 3) 0 <<< 24),
          RK.getD (p + 5) 0 ^^^ FSb.getD (byteOf Y1 0) 0 ^^^ (FSb.getD (byteOf Y2 1) 0 <<< 8) ^^^
            (FSb.getD (byteOf Y3 2) 0 <<< 16) ^^^ (FSb.getD (byteOf Y0 3) 0 <<< 24),
          RK.getD (p + 6) 0 ^^^ FSb.getD (byteOf Y2 0) 0 ^^^ (FSb.getD (byteOf Y3 1) 0 <<< 8) ^^^
            (FSb.getD (byteOf Y0 2) 0 <<< 16) ^^^ (FSb.getD (byteOf Y1 3) 0 <<< 24),
          RK.getD (p + 7) 0 ^^^ FSb.getD (byteOf Y3 0) 0 ^^^ (FSb.getD (byteOf Y0 1) 0 <<< 8) ^^^
            (FSb.getD (byteOf Y1 2) 0 <<< 16) ^^^ (FSb.getD (byteOf Y2 3) 0 <<< 24))

/-- Function `mbedtls_internal_aes_decrypt`. -/
def mbedtls_internal_aes_decrypt (ctx : aes_context) (input : Block) : Block :=
  let RK := ctx.buf
  match roundLoop AES_RROUND RK ((ctx.nr >>> 1) - 1) 4 (loadState RK input) with
  | (p, X) =>
    match AES_RROUND RK p X with
    | (Y0, Y1, Y2, Y3) =>
      putWords
        (RK.getD (p + 4) 0 ^^^ RSb.getD (byteOf Y0 0) 0 ^^^ (RSb.getD (byteOf Y3 1) 0 <<< 8) ^^^
            (RSb.getD (byteOf Y2 2) 0 <<< 16) ^^^ (RSb.getD (byteOf Y1 3) 0 <<< 24),
          RK.getD (p + 5) 0 ^^^ RSb.getD (byteOf Y1 0) 0 ^^^ (RSb.getD (byteOf Y0 1) 0 <<< 8) ^^^
            (RSb.getD (byteOf Y3 2) 0 <<< 16) ^^^ (RSb.getD (byteOf Y2 3) 0 <<< 24),
          RK.getD (p + 6) 0 ^^^ RSb.getD (byteOf Y2 0) 0 ^^^ (RSb.getD (byteOf Y1 1) 0 <<< 8) ^^^
            (RSb.getD (byteOf Y0 2) 0 <<< 16) ^^^ (RSb.getD (byteOf Y3 3) 0 <<< 24),
          RK.getD (p + 7) 0 ^^^ RSb.getD (byteOf Y3 0) 0 ^^^ (RSb.getD (byteOf Y2 1) 0 <<< 8) ^^^
            (RSb.getD (byteOf Y1 2) 0 <<< 16) ^^^ (RSb.getD (byteOf Y0 3) 0 <<< 24))

/-- The word `RT0[FSb[b0]] ^ RT1[FSb[b1]] ^ RT2[FSb[b2]] ^ RT3[FSb[b3]]` that
`mbedtls_aes_setkey_dec` stores for the encryption round-key word `w`. -/
def invKeyWord (w : Nat) : Nat :=
  RT0 (FSb.getD (byteOf w 0) 0) ^^^ RT1 (FSb.getD (byteOf w 1) 0) ^^^
    RT2 (FSb.getD (byteOf w 2) 0) ^^^ RT3 (FSb.getD (byteOf w 3) 0)

/-- The call `mbedtls_aes_setkey_dec(ctx, key, 256)`, which the firmware never makes: the
encryption round keys in reverse order, the inner ones passed through `invKeyWord`. -/
def setkey_dec256 (ctx : aes_context) (key : List Byte) : Int × aes_context :=
  let cty := (setkey_enc256 ctx key).2
  let SK := fun k => cty.buf.getD k 0
  let inner := (List.range (cty.nr - 1)).flatMap
    (fun j => (List.range 4).map (fun c => invKeyWord (SK (4 * (cty.nr - 1 - j) + c))))
  (0, { nr := cty.nr,
        buf := (List.range 4).map (fun c => SK (4 * cty.nr + c)) ++ inner ++
          (List.range 4).map SK ++ List.replicate 8 0 })

end Mbedtls

/-- Modelled from the spec: a sample of the cipher primitive behind `mbedtls/aes.h`, which
the repository does not contain. The spec fixes a 256-bit key, 16-byte blocks and a schedule
derived from the key; the block functions here are those of AES-256 with the schedule fixed
at key setup, as in a generic software implementation. It serves as concrete input of
witnesses and of evaluated runs; the theorems on the cipher layer hold for every
`AesLibrary`. -/
def Mbedtls.library : AesLibrary where
  Context := Mbedtls.aes_context
  mbedtls_aes_init := { nr := 0, buf := List.replicate 68 0 }
  mbedtls_aes_free := fun _ => { nr := 0, buf := List.replicate 68 0 }
  mbedtls_aes_setkey_enc := Mbedtls.setkey_enc256
  mbedtls_aes_crypt_ecb := fun ctx mode input =>
    match mode with
    | .MBEDTLS_AES_ENCRYPT => Mbedtls.mbedtls_internal_aes_encrypt ctx input
    | .MBEDTLS_AES_DECRYPT => Mbedtls.mbedtls_internal_aes_decrypt ctx input

namespace AesPort

/-- Context of the sample port: the key length in bytes and the raw key. -/
structure aes_context where
  key_bytes : Nat
  key : List Byte
  deriving DecidableEq, Repr

/-- Key setup of the sample port for a 256-bit key: the raw key is stored, no schedule is
computed, the result code is 0. -/
def setkey (_ctx : aes_context) (key : List Byte) : Int × aes_context :=
  (0, { key_bytes := 32, key := key.take 32 })

/-- Block call of the sample port: AES-256 on the stored key in the direction asked for;
without a 256-bit key the block is left as it is. -/
def crypt_ecb (ctx : aes_context) (mode : AesMode) (input : Block) : Block :=
  if ctx.key_bytes = 32 then
    match mode with
    | .MBEDTLS_AES_ENCRYPT =>
      Mbedtls.mbedtls_internal_aes_encrypt
        (Mbedtls.setkey_enc256 { nr := 0, buf := List.replicate 68 0 } ctx.key).2 input
    | .MBEDTLS_AES_DECRYPT =>
      Mbedtls.mbedtls_internal_aes_decrypt
        (Mbedtls.setkey_dec256 { nr := 0, buf := List.replicate 68 0 } ctx.key).2 input
  else input

/-- Modelled from the spec: a sample of the cipher primitive behind `mbedtls/aes.h`, which
the repository does not contain, in the organisation of a port to an AES engine: the context
keeps the raw key and every block call runs AES-256 in the direction it is asked for. -/
def library : AesLibrary where
  Context := aes_context
  mbedtls_aes_init := { key_bytes := 0, key := List.replicate 32 0 }
  mbedtls_aes_free := fun _ => { key_bytes := 0, key := List.replicate 32 0 }
  mbedtls_aes_setkey_enc := setkey
  mbedtls_aes_crypt_ecb := crypt_ecb

end AesPort

/-! ## Definitions for the behavioural claims -/

/-- The expression `((length + 15) / 16) * 16` of `encryptPacket`, in `int` arithmetic. -/
def VPNEncryption.paddedLen (length : Int) : Int := (Int.tdiv (wrapInt32 (length + 15)) 16) * 16

/-- Block `j` of a buffer: the 16 bytes from offset `16 * j` on. -/
def blockAt (packet : List Byte) (j : Nat) : List Byte := (packet.drop (16 * j)).take 16

/-- A library that behaves as `L`, except that its key setup refuses the key `bad`: it
returns the non-zero `code` and leaves the context as it was. -/
def AesLibrary.withRejectedKey (L : AesLibrary) (bad : List Byte) (code : Int) : AesLibrary :=
  { L with
    mbedtls_aes_setkey_enc := fun ctx key =>
      if key = bad then (code, ctx) else L.mbedtls_aes_setkey_enc ctx key }

/-- The protocol-block policy of step 4 of the specified inspection: the protocol number is
one of ICMP = 1, TCP = 6, UDP = 17 and the flag of that protocol is set. -/
def PacketInspector.ProtocolFlagged (s : PacketInspector) (proto : Nat) : Prop :=
  (proto = 1 ∧ s.blockICMP = true) ∨ (proto = 6 ∧ s.blockTCP = true) ∨
    (proto = 17 ∧ s.blockUDP = true)

/-- The six-step decision of the specification, in its words: a frame is accepted when it has
at least 14 bytes and either its big-endian type at bytes 12-13 is not 0x0800, or it has at
least 34 bytes, its protocol byte at offset 23 is not a protocol whose block flag is set, and
it is not a TCP or UDP frame of at least 38 bytes whose big-endian port at bytes 36-37 is in
the blocked-port list. -/
def PacketInspector.ReferenceAccepts (s : PacketInspector) (packet : List Byte)
    (length : Int) : Prop :=
  14 ≤ length ∧
    (be16 packet 12 ≠ 0x0800 ∨
      (34 ≤ length ∧ ¬ s.ProtocolFlagged (packet.getD 23 0).val ∧
        ¬ (((packet.getD 23 0).val = 6 ∨ (packet.getD 23 0).val = 17) ∧ 38 ≤ length ∧
            s.InBlockedPorts (be16 packet 36))))

/-- The states of a `PacketInspector` object: a fresh one, and what the two mutators make
of a state. -/
inductive PacketInspector.Reachable : PacketInspector → Prop where
  | init (garbage : Nat → Nat) : Reachable (PacketInspector.init garbage)
  | blockProtocol {s : PacketInspector} (proto : Protocol) (block : Bool) :
      Reachable s → Reachable (s.blockProtocol proto block)
  | addBlockedPort {s : PacketInspector} (port : Nat) :
      Reachable s → Reachable (s.addBlockedPort port).2

/-- The loop of `isPortBlocked` from index `i` with `n` passes left, with the bound of
`blockedPorts[20]` made explicit: `none` when a pass would read a slot outside the array. -/
def PacketInspector.portScan (s : PacketInspector) (port : Nat) : Nat → Nat → Option Bool
  | 0, _ => some false
  | n + 1, i =>
    if i < 20 then
      if s.blockedPorts i == port then some true else s.portScan port n (i + 1)
    else none

/-- Method `isPortBlocked` with the array bound made explicit. -/
def PacketInspector.isPortBlockedChecked (s : PacketInspector) (port : Nat) : Option Bool :=
  s.portScan port s.blockedPortCount 0

/-! ## Sample inputs -/

/-- A sample hardware address. -/
def macA : MAC := ![0xDE, 0xAD, 0xBE, 0xEF, 0x00, 0x01]

/-- A second sample hardware address. -/
def macB : MAC := ![0x02, 0x00, 0x5E, 0x10, 0x00, 0x07]

/-- Array contents before any write: all slots zero. -/
def zeroMACs : Nat → MAC := fun _ _ => 0

/-- A filter in whitelist mode that holds `macA` in both lists. -/
def filterBoth : MACFilter :=
  ((((MACFilter.init zeroMACs zeroMACs).addAllowedMAC macA).2.addBlockedMAC macA).2).setWhitelistMode
    true

/-- A filter in whitelist mode that holds `macA` in the allowed list and `macB` in the
blocked list. -/
def filterSplit : MACFilter :=
  ((((MACFilter.init zeroMACs zeroMACs).addAllowedMAC macA).2.addBlockedMAC macB).2).setWhitelistMode
    true

/-- A whitelist-mode filter after ten successful `addAllowedMAC macA` calls. -/
def filterFullAllowed : MACFilter :=
  ((fun s => (MACFilter.addAllowedMAC s macA).2)^[10]
    (MACFilter.init zeroMACs zeroMACs)).setWhitelistMode true

/-- A filter after ten successful `addBlockedMAC macB` calls. -/
def filterFullBlocked : MACFilter :=
  (fun s => (MACFilter.addBlockedMAC s macB).2)^[10] (MACFilter.init zeroMACs zeroMACs)

/-- A fresh inspector over a zeroed port array. -/
def inspectorFresh : PacketInspector := PacketInspector.init (fun _ => 0)

/-- An inspector after twenty successful `addBlockedPort 22` calls. -/
def inspectorFullPorts : PacketInspector :=
  (fun s => (PacketInspector.addBlockedPort s 22).2)^[20] inspectorFresh

/-- An inspector that blocks ICMP only, with no blocked port. -/
def inspectorNoICMP : PacketInspector := inspectorFresh.blockProtocol .ICMP true

/-- An inspector with port 22 blocked. -/
def inspectorNoSSH : PacketInspector := (inspectorFresh.addBlockedPort 22).2

/-- A 38-byte frame: zeroed addresses, the given type field, an option-less IPv4 header with
the given protocol byte, source port 0 and the given destination port. -/
def sampleFrame (typeHi typeLo proto portHi portLo : Byte) : List Byte :=
  List.replicate 12 0 ++ [typeHi, typeLo] ++ [0x45] ++ List.replicate 8 0 ++ [proto] ++
    List.replicate 10 0 ++ [0, 0, portHi, portLo]

/-- An ARP frame (type 0x0806). -/
def frameARP : List Byte := sampleFrame 0x08 0x06 0 0 0

/-- An IPv4 UDP frame to port 53. -/
def frameUDP : List Byte := sampleFrame 0x08 0x00 17 0 53

/-- An IPv4 TCP frame to port 22. -/
def frameTCP22 : List Byte := sampleFrame 0x08 0x00 6 0 22

/-- An IPv4 TCP frame to port 23. -/
def frameTCP23 : List Byte := sampleFrame 0x08 0x00 6 0 23

/-- The 256-bit key `00 01 .. 1f` of FIPS-197 appendix C.3. -/
def fipsKey : List Byte := (List.range 32).map (fun i => Fin.ofNat i)

/-- The plaintext block `00 11 .. ff` of FIPS-197 appendix C.3. -/
def fipsPlain : List Byte := (List.range 16).map (fun i => Fin.ofNat (i * 0x11))

/-- The ciphertext block of FIPS-197 appendix C.3. -/
def fipsCipher : List Byte :=
  [0x8e, 0xa2, 0xb7, 0xca, 0x51, 0x67, 0x45, 0xbf, 0xea, 0xfc, 0x49, 0x90, 0x4b, 0x49, 0x60, 0x89]

/-- The block the sample library returns for `fipsCipher` in decrypt mode over the
encryption round keys of `fipsKey`. -/
def fipsScrambled : List Byte :=
  [0x2e, 0xfd, 0x3b, 0xa1, 0xd0, 0x2e, 0xb2, 0x3f, 0xac, 0x44, 0x54, 0x95, 0x14, 0x4a, 0x4b, 0x89]

/-- A context of the sample library after a successful `setKey(fipsKey, 32)`. -/
def vpnKeyed : VPNEncryption Mbedtls.library :=
  { aes_ctx := (Mbedtls.setkey_enc256 Mbedtls.library.mbedtls_aes_init fipsKey).2,
    key := fipsKey, enabled := true }

/-- A 42-byte IPv4 TCP frame with the given version/IHL byte: bytes 34 to 37 are zero (the
option word when the header has six words), bytes 38-39 hold port 1024 and bytes 40-41 hold
port 22. With `0x46` at offset 14 the TCP header starts at offset 38, so its destination
port is 22. -/
def frameOptions (versionIHL : Byte) : List Byte :=
  List.replicate 12 0 ++ [0x08, 0x00] ++ [versionIHL] ++ List.replicate 8 0 ++ [6] ++
    List.replicate 10 0 ++ [0, 0, 0, 0] ++ [0x04, 0x00, 0x00, 0x16]

/-- A 33-byte buffer: the FIPS-197 plaintext block twice, then one more byte. -/
def twoBlocksAndOne : List Byte := fipsPlain ++ fipsPlain ++ [0xAA]

/-- The all-zero 256-bit key. -/
def zeroKey : List Byte := List.replicate 32 0

/-- The sample library with a key setup that refuses the all-zero key. -/
def strictLibrary : AesLibrary :=
  Mbedtls.library.withRejectedKey zeroKey (-0x0020)

/-- A context of `strictLibrary` after a successful `setKey(fipsKey, 32)`. -/
def vpnStrictKeyed : VPNEncryption strictLibrary :=
  { aes_ctx := (Mbedtls.setkey_enc256 Mbedtls.library.mbedtls_aes_init fipsKey).2,
    key := fipsKey, enabled := true }

/-! ## Basic facts -/

theorem memcmp6_eq_zero_iff (a b : MAC) : memcmp6 a b = 0 ↔ a = b := by
  unfold memcmp6
  constructor
  · intro h
    cases hf : (List.finRange 6).find? (fun i => a i != b i) with
    | none =>
      funext i
      have := List.find?_eq_none.mp hf i (List.mem_finRange i)
      simpa using this
    | some i =>
      rw [hf] at h
      have h0 : ((a i).val : Int) - ((b i).val : Int) = 0 := h
      have hne := List.find?_some hf
      simp only [bne_iff_ne, ne_eq] at hne
      exact absurd (Fin.ext (by omega)) hne
  · rintro rfl
    have : (List.finRange 6).find? (fun i => a i != a i) = none := by
      simp
    rw [this]

theorem MACFilter.blockedHit_iff (s : MACFilter) (a : MAC) :
    s.blockedHit a = true ↔ s.InBlocked a := by
  simp [MACFilter.blockedHit, MACFilter.InBlocked, List.any_eq_true, memcmp6_eq_zero_iff]

theorem MACFilter.allowedHit_iff (s : MACFilter) (a : MAC) :
    s.allowedHit a = true ↔ s.InAllowed a := by
  simp [MACFilter.allowedHit, MACFilter.InAllowed, List.any_eq_true, memcmp6_eq_zero_iff]

theorem PacketInspector.isPortBlocked_iff (s : PacketInspector) (port : Nat) :
    s.isPortBlocked port = true ↔ s.InBlockedPorts port := by
  simp [PacketInspector.isPortBlocked, PacketInspector.InBlockedPorts, List.any_eq_true]

theorem ntohs_loadU16 (b0 b1 : Byte) : ntohs (loadU16 b0 b1) = b0.val * 256 + b1.val := by
  have h0 := b0.isLt
  have h1 := b1.isLt
  unfold ntohs loadU16
  omega

theorem getElem?_eq_getD_of_lt (packet : List Byte) (i : Nat) (h : i < packet.length) :
    packet[i]? = some (packet.getD i 0) := by
  simp [List.getD, List.getElem?_eq_getElem h]

theorem ntohs_readU16 (packet : List Byte) (off : Nat) (h : off + 1 < packet.length) :
    ∃ raw, readU16 packet off = some raw ∧ ntohs raw = be16 packet off := by
  refine ⟨loadU16 (packet.getD off 0) (packet.getD (off + 1) 0), ?_, ?_⟩
  · unfold readU16
    rw [getElem?_eq_getD_of_lt packet off (by omega), getElem?_eq_getD_of_lt packet (off + 1) h]
  · rw [ntohs_loadU16, be16]

/-- The decision of `inspectPacket` on a frame of at least 14 bytes that lies inside the
buffer and whose type field is not IPv4. -/
theorem PacketInspector.inspectPacket_nonIP (s : PacketInspector) (packet : List Byte)
    (length : Int) (hlen : 14 ≤ length) (hbuf : length ≤ packet.length)
    (htype : be16 packet 12 ≠ 0x0800) : s.inspectPacket packet length = some true := by
  obtain ⟨raw, hraw, hnt⟩ := ntohs_readU16 packet 12 (by omega)
  unfold PacketInspector.inspectPacket
  rw [if_neg (by omega), hraw]
  simp only [hnt]
  rw [if_neg htype]

/-- The decision of `inspectPacket` on an IPv4 frame of at least 34 bytes that lies inside
the buffer, up to the port check. -/
theorem PacketInspector.inspectPacket_ipv4 (s : PacketInspector) (packet : List Byte)
    (length : Int) (hlen : 34 ≤ length) (hbuf : length ≤ packet.length)
    (htype : be16 packet 12 = 0x0800) :
    s.inspectPacket packet length =
      if s.blockICMP && (packet.getD 23 0).val == 1 then some false
      else if s.blockUDP && (packet.getD 23 0).val == 17 then some false
      else if s.blockTCP && (packet.getD 23 0).val == 6 then some false
      else if (packet.getD 23 0).val == 6 || (packet.getD 23 0).val == 17 then
        if length ≥ 38 then
          match readU16 packet 36 with
          | none => none
          | some rawPort => if s.isPortBlocked (ntohs rawPort) then some false else some true
        else some true
      else some true := by
  obtain ⟨raw, hraw, hnt⟩ := ntohs_readU16 packet 12 (by omega)
  unfold PacketInspector.inspectPacket
  rw [if_neg (by omega), hraw]
  simp only [hnt]
  rw [if_pos htype, if_neg (by omega), getElem?_eq_getD_of_lt packet 23 (by omega)]
  rfl

/-- The port check of `inspectPacket` on a frame of at least 38 bytes inside the buffer. -/
theorem PacketInspector.portCheck_eq (s : PacketInspector) (packet : List Byte)
    (length : Int) (hlen : 38 ≤ length) (hbuf : length ≤ packet.length) :
    (if length ≥ 38 then
      match readU16 packet 36 with
      | none => none
      | some rawPort => if s.isPortBlocked (ntohs rawPort) then some false else some true
    else some true) = some (!s.isPortBlocked (be16 packet 36)) := by
  obtain ⟨raw, hraw, hnt⟩ := ntohs_readU16 packet 36 (by omega)
  rw [if_pos (by omega), hraw]
  simp only [hnt]
  cases s.isPortBlocked (be16 packet 36) <;> rfl

/-! ## MAC filter: claims -/

/-- C1: an address that equals one of the first `blockedCount` entries of the blocked list
is denied by `isAllowed`, for every content of the allowed list and every mode. -/
theorem isAllowed_blocked_denied (s : MACFilter) (a : MAC)
    (h : ∃ i, i < s.blockedCount ∧ s.blockedMACs i = a) : s.isAllowed a = false := by
  have hb : s.blockedHit a = true := (s.blockedHit_iff a).mpr h
  simp [MACFilter.isAllowed, hb]

/-- Witness for C1: `macA` is in both lists of a whitelist-mode filter and is denied. -/
theorem isAllowed_blocked_denied_witness :
    (∃ i, i < filterBoth.allowedCount ∧ filterBoth.allowedMACs i = macA) ∧
      filterBoth.whitelistMode = true ∧ filterBoth.isAllowed macA = false :=
  ⟨⟨0, by decide, rfl⟩, rfl, isAllowed_blocked_denied filterBoth macA ⟨0, by decide, rfl⟩⟩

/-- C2: for an address outside the blocked list, `isAllowed` is true exactly when the filter
is in blacklist mode or the address is among the first `allowedCount` allowed entries. -/
theorem isAllowed_unblocked_iff (s : MACFilter) (a : MAC)
    (h : ¬ ∃ i, i < s.blockedCount ∧ s.blockedMACs i = a) :
    s.isAllowed a = true ↔
      (s.whitelistMode = false ∨ ∃ i, i < s.allowedCount ∧ s.allowedMACs i = a) := by
  have hb : s.blockedHit a = false := by
    rw [← Bool.not_eq_true, s.blockedHit_iff a]
    exact h
  have ha := s.allowedHit_iff a
  unfold MACFilter.InAllowed at ha
  rw [← ha]
  unfold MACFilter.isAllowed
  cases hw : s.whitelistMode <;> cases hh : s.allowedHit a <;> simp [hb]

/-- Witness for C2: in whitelist mode with `macB` blocked, the listed `macA` is allowed. -/
theorem isAllowed_unblocked_iff_witness :
    (¬ ∃ i, i < filterSplit.blockedCount ∧ filterSplit.blockedMACs i = macA) ∧
      filterSplit.isAllowed macA = true := by
  have hnb : ¬ ∃ i, i < filterSplit.blockedCount ∧ filterSplit.blockedMACs i = macA := by
    rw [← MACFilter.InBlocked, ← MACFilter.blockedHit_iff]
    decide
  exact ⟨hnb, (isAllowed_unblocked_iff filterSplit macA hnb).mpr (Or.inr ⟨0, by decide, rfl⟩)⟩

/-- C3: an add on a full list returns false and leaves the whole state as it was, so every
later decision is the one made before the call: `addAllowedMAC` at `allowedCount = 10`,
`addBlockedMAC` at `blockedCount = 10`, `addBlockedPort` at `blockedPortCount = 20`. -/
theorem add_at_capacity_unchanged (m : MACFilter) (p : PacketInspector) (a : MAC)
    (port : Nat) :
    (m.allowedCount = 10 →
      (m.addAllowedMAC a).1 = false ∧ (m.addAllowedMAC a).2 = m ∧
        ∀ b, (m.addAllowedMAC a).2.isAllowed b = m.isAllowed b) ∧
    (m.blockedCount = 10 →
      (m.addBlockedMAC a).1 = false ∧ (m.addBlockedMAC a).2 = m ∧
        ∀ b, (m.addBlockedMAC a).2.isAllowed b = m.isAllowed b) ∧
    (p.blockedPortCount = 20 →
      (p.addBlockedPort port).1 = false ∧ (p.addBlockedPort port).2 = p ∧
        ∀ packet length,
          (p.addBlockedPort port).2.inspectPacket packet length =
            p.inspectPacket packet length) := by
  refine ⟨fun h => ?_, fun h => ?_, fun h => ?_⟩
  · have e : m.addAllowedMAC a = (false, m) := by
      simp [MACFilter.addAllowedMAC, h, MAX_ALLOWED_MACS]
    simp [e]
  · have e : m.addBlockedMAC a = (false, m) := by
      simp [MACFilter.addBlockedMAC, h, MAX_BLOCKED_MACS]
    simp [e]
  · have e : p.addBlockedPort port = (false, p) := by
      simp [PacketInspector.addBlockedPort, h]
    simp [e]

/-- Witness for C3: after ten successful `addAllowedMAC` calls the eleventh (with another
address) fails and the listed address still decides as before; likewise for the full
blocked list and the full port list. -/
theorem add_at_capacity_unchanged_witness :
    ((filterFullAllowed.addAllowedMAC macB).1 = false ∧
      (filterFullAllowed.addAllowedMAC macB).2.isAllowed macA = true ∧
      (filterFullAllowed.addAllowedMAC macB).2.isAllowed macB = false) ∧
    ((filterFullBlocked.addBlockedMAC macA).1 = false ∧
      (filterFullBlocked.addBlockedMAC macA).2 = filterFullBlocked) ∧
    ((inspectorFullPorts.addBlockedPort 80).1 = false ∧
      (inspectorFullPorts.addBlockedPort 80).2 = inspectorFullPorts) := by
  have h := add_at_capacity_unchanged filterFullAllowed inspectorFullPorts macB 80
  have h2 := add_at_capacity_unchanged filterFullBlocked inspectorFullPorts macA 80
  have ha := h.1 rfl
  have hb := h2.2.1 rfl
  have hp := h.2.2 rfl
  refine ⟨⟨ha.1, ?_, ?_⟩, ⟨hb.1, hb.2.1⟩, ⟨hp.1, hp.2.1⟩⟩
  · rw [ha.2.2]
    decide
  · rw [ha.2.2]
    decide

/-- Membership among the first `n + 1` slots after slot `n` is overwritten with `a`. -/
theorem exists_update_succ {α : Type} (f : Nat → α) (n : Nat) (a x : α) :
    (∃ i, i < n + 1 ∧ Function.update f n a i = x) ↔ ((∃ i, i < n ∧ f i = x) ∨ x = a) := by
  constructor
  · rintro ⟨i, hi, hx⟩
    by_cases hin : i = n
    · subst hin
      rw [Function.update_same] at hx
      exact Or.inr hx.symm
    · rw [Function.update_noteq hin] at hx
      exact Or.inl ⟨i, by omega, hx⟩
  · rintro (⟨i, hi, hx⟩ | rfl)
    · exact ⟨i, by omega, by rw [Function.update_noteq (by omega)]; exact hx⟩
    · exact ⟨n, by omega, by rw [Function.update_same]⟩

/-- C4: below capacity an add appends exactly the given address. `addAllowedMAC` returns
true, writes the address into slot `allowedCount`, keeps the earlier slots, so that the
allowed membership becomes the old one plus `a`, and leaves the blocked list and the mode
alone; `addBlockedMAC` returns true, after it `a` is denied and the decision for every other
address is the one made before. -/
theorem add_below_capacity_appends (s : MACFilter) (a : MAC) :
    (s.allowedCount < 10 →
      (s.addAllowedMAC a).1 = true ∧
      (s.addAllowedMAC a).2.allowedCount = s.allowedCount + 1 ∧
      (s.addAllowedMAC a).2.allowedMACs s.allowedCount = a ∧
      (∀ i, i < s.allowedCount → (s.addAllowedMAC a).2.allowedMACs i = s.allowedMACs i) ∧
      (∀ x, (s.addAllowedMAC a).2.InAllowed x ↔ (s.InAllowed x ∨ x = a)) ∧
      (s.addAllowedMAC a).2.blockedMACs = s.blockedMACs ∧
      (s.addAllowedMAC a).2.blockedCount = s.blockedCount ∧
      (s.addAllowedMAC a).2.whitelistMode = s.whitelistMode) ∧
    (s.blockedCount < 10 →
      (s.addBlockedMAC a).1 = true ∧
      (s.addBlockedMAC a).2.isAllowed a = false ∧
      ∀ b, b ≠ a → (s.addBlockedMAC a).2.isAllowed b = s.isAllowed b) := by
  constructor
  · intro h
    have e : s.addAllowedMAC a = (true, { s with
        allowedMACs := Function.update s.allowedMACs s.allowedCount a,
        allowedCount := s.allowedCount + 1 }) := by
      unfold MACFilter.addAllowedMAC MAX_ALLOWED_MACS
      rw [if_neg (by omega)]
    rw [e]
    refine ⟨rfl, rfl, by simp, ?_, ?_, rfl, rfl, rfl⟩
    · intro i hi
      exact Function.update_noteq (by omega) _ _
    · intro x
      exact exists_update_succ s.allowedMACs s.allowedCount a x
  · intro h
    have e : s.addBlockedMAC a = (true, { s with
        blockedMACs := Function.update s.blockedMACs s.blockedCount a,
        blockedCount := s.blockedCount + 1 }) := by
      unfold MACFilter.addBlockedMAC MAX_BLOCKED_MACS
      rw [if_neg (by omega)]
    rw [e]
    have hmem : ∀ x, MACFilter.InBlocked { s with
        blockedMACs := Function.update s.blockedMACs s.blockedCount a,
        blockedCount := s.blockedCount + 1 } x ↔ (s.InBlocked x ∨ x = a) := fun x =>
      exists_update_succ s.blockedMACs s.blockedCount a x
    refine ⟨rfl, ?_, ?_⟩
    · have hb := (MACFilter.blockedHit_iff _ a).mpr ((hmem a).mpr (Or.inr rfl))
      simp only [MACFilter.isAllowed]
      rw [hb]
      rfl
    · intro b hba
      have hbb : MACFilter.blockedHit { s with
          blockedMACs := Function.update s.blockedMACs s.blockedCount a,
          blockedCount := s.blockedCount + 1 } b = s.blockedHit b := by
        rw [Bool.eq_iff_iff, MACFilter.blockedHit_iff, MACFilter.blockedHit_iff, hmem b]
        simp [hba]
      simp only [MACFilter.isAllowed]
      rw [hbb]
      rfl

/-- Witness for C4: on the filter that blocks `macB` and lists `macA`, adding `macB` to the
allowed list succeeds, and blocking `macA` succeeds and turns its decision to false. -/
theorem add_below_capacity_appends_witness :
    ((filterSplit.addAllowedMAC macB).1 = true ∧
      (filterSplit.addAllowedMAC macB).2.allowedMACs 1 = macB) ∧
    (filterSplit.isAllowed macA = true ∧ (filterSplit.addBlockedMAC macA).1 = true ∧
      (filterSplit.addBlockedMAC macA).2.isAllowed macA = false) := by
  have h := add_below_capacity_appends filterSplit macB
  have h2 := add_below_capacity_appends filterSplit macA
  have ha := h.1 (by decide)
  have hb := h2.2 (by decide)
  exact ⟨⟨ha.1, ha.2.2.1⟩, by decide, hb.1, hb.2.1⟩

/-! ## Packet inspector: claims -/

/-- C5: for every policy state, buffer and length below 14 (zero and negative lengths
included), `inspectPacket` returns false. -/
theorem inspectPacket_short_rejected (s : PacketInspector) (packet : List Byte)
    (length : Int) (h : length < 14) : s.inspectPacket packet length = some false := by
  unfold PacketInspector.inspectPacket
  rw [if_pos h]

/-- Witness for C5: a negative length over an ARP frame, with every flag unset. -/
theorem inspectPacket_short_rejected_witness :
    inspectorFresh.inspectPacket frameARP (-1) = some false :=
  inspectPacket_short_rejected inspectorFresh frameARP (-1) (by decide)

/-- C6: a frame of at least 14 bytes, held by the buffer, whose big-endian type field at
bytes 12 and 13 is not 0x0800 is accepted in every policy state. -/
theorem inspectPacket_nonIP_accepted (s : PacketInspector) (packet : List Byte)
    (length : Int) (hlen : 14 ≤ length) (hbuf : length ≤ packet.length)
    (htype : (packet.getD 12 0).val * 256 + (packet.getD 13 0).val ≠ 0x0800) :
    s.inspectPacket packet length = some true :=
  s.inspectPacket_nonIP packet length hlen hbuf htype

/-- Witness for C6: an ARP frame passes an inspector that blocks all three protocols. -/
theorem inspectPacket_nonIP_accepted_witness :
    (((inspectorFullPorts.blockProtocol .ICMP true).blockProtocol .TCP true).blockProtocol
      .UDP true).inspectPacket frameARP 38 = some true :=
  inspectPacket_nonIP_accepted _ frameARP 38 (by decide) (by decide) (by decide)

/-- C7: on an IPv4 frame of at least 34 bytes held by the buffer, (a) with protocol byte 17,
an empty blocked-port list, ICMP blocked and UDP not blocked the frame is accepted, and after
`blockProtocol UDP true` on that state the same frame is rejected; (b) a frame whose protocol
is ICMP, TCP or UDP is rejected whenever the flag of that protocol is set. -/
theorem inspectPacket_protocol_block (s : PacketInspector) (packet : List Byte)
    (length : Int) (hlen : 34 ≤ length) (hbuf : length ≤ packet.length)
    (htype : (packet.getD 12 0).val * 256 + (packet.getD 13 0).val = 0x0800) :
    ((packet.getD 23 0).val = 17 → s.blockedPortCount = 0 → s.blockICMP = true →
        s.blockUDP = false →
      s.inspectPacket packet length = some true ∧
        (s.blockProtocol .UDP true).inspectPacket packet length = some false) ∧
    ((packet.getD 23 0).val = 1 → s.blockICMP = true →
      s.inspectPacket packet length = some false) ∧
    ((packet.getD 23 0).val = 6 → s.blockTCP = true →
      s.inspectPacket packet length = some false) ∧
    ((packet.getD 23 0).val = 17 → s.blockUDP = true →
      s.inspectPacket packet length = some false) := by
  have hs := fun t : PacketInspector => t.inspectPacket_ipv4 packet length hlen hbuf htype
  refine ⟨fun hp hc hi hu => ⟨?_, ?_⟩, fun hp hf => ?_, fun hp hf => ?_, fun hp hf => ?_⟩
  · rw [hs s]
    by_cases h38 : 38 ≤ length
    · rw [s.portCheck_eq packet length h38 hbuf]
      simp only [hp]
      simp [hu, PacketInspector.isPortBlocked, hc]
    · rw [if_neg (show ¬ length ≥ 38 by omega)]
      simp only [hp]
      simp [hu]
  · rw [hs]
    simp only [hp]
    simp [PacketInspector.blockProtocol]
  · rw [hs s]
    simp only [hp]
    simp [hf]
  · rw [hs s]
    simp only [hp]
    simp [hf]
  · rw [hs s]
    simp only [hp]
    simp [hf]

/-- Witness for C7: the UDP sample frame passes the inspector that blocks ICMP only and is
rejected once UDP is blocked too. -/
theorem inspectPacket_protocol_block_witness :
    inspectorNoICMP.inspectPacket frameUDP 38 = some true ∧
      (inspectorNoICMP.blockProtocol .UDP true).inspectPacket frameUDP 38 = some false ∧
      (inspectorNoICMP.blockProtocol .UDP true).inspectPacket frameUDP 34 = some false := by
  have h := (inspectPacket_protocol_block inspectorNoICMP frameUDP 38 (by decide) (by decide)
    (by decide)).1 (by decide) rfl rfl rfl
  have h2 := (inspectPacket_protocol_block (inspectorNoICMP.blockProtocol .UDP true) frameUDP 34
    (by decide) (by decide) (by decide)).2.2.2 (by decide) rfl
  exact ⟨h.1, h.2, h2⟩

/-- C8: on an IPv4 frame of at least 38 bytes held by the buffer, with protocol TCP or UDP
whose flag is not set, `inspectPacket` returns false exactly when the big-endian destination
port at bytes 36 and 37 is among the first `blockedPortCount` blocked ports, and returns true
otherwise; and on the inspector obtained from a fresh one by `addBlockedPort 22`, a TCP
frame to port 22 is rejected and a TCP frame to port 23 is accepted. -/
theorem inspectPacket_port_block (s : PacketInspector) (packet : List Byte)
    (length : Int) (hlen : 38 ≤ length) (hbuf : length ≤ packet.length)
    (htype : (packet.getD 12 0).val * 256 + (packet.getD 13 0).val = 0x0800) :
    ((((packet.getD 23 0).val = 6 ∧ s.blockTCP = false) ∨
        ((packet.getD 23 0).val = 17 ∧ s.blockUDP = false)) →
      (s.inspectPacket packet length = some false ↔
        ∃ i, i < s.blockedPortCount ∧
          s.blockedPorts i = (packet.getD 36 0).val * 256 + (packet.getD 37 0).val) ∧
      (s.inspectPacket packet length = some true ↔
        ¬ ∃ i, i < s.blockedPortCount ∧
          s.blockedPorts i = (packet.getD 36 0).val * 256 + (packet.getD 37 0).val)) ∧
    ((packet.getD 23 0).val = 6 → ∀ garbage,
      ((packet.getD 36 0).val * 256 + (packet.getD 37 0).val = 22 →
        ((PacketInspector.init garbage).addBlockedPort 22).2.inspectPacket packet length
          = some false) ∧
      ((packet.getD 36 0).val * 256 + (packet.getD 37 0).val = 23 →
        ((PacketInspector.init garbage).addBlockedPort 22).2.inspectPacket packet length
          = some true)) := by
  have hs : ∀ t : PacketInspector,
      ((((packet.getD 23 0).val = 6 ∧ t.blockTCP = false) ∨
        ((packet.getD 23 0).val = 17 ∧ t.blockUDP = false)) →
      t.inspectPacket packet length = some (!t.isPortBlocked (be16 packet 36))) := by
    intro t hp
    rw [t.inspectPacket_ipv4 packet length (by omega) hbuf htype,
      t.portCheck_eq packet length hlen hbuf]
    rcases hp with ⟨hp, hf⟩ | ⟨hp, hf⟩ <;> simp only [hp] <;> simp [hf]
  constructor
  · intro hp
    have hm : s.isPortBlocked (be16 packet 36) = true ↔
        ∃ i, i < s.blockedPortCount ∧
          s.blockedPorts i = (packet.getD 36 0).val * 256 + (packet.getD 37 0).val :=
      s.isPortBlocked_iff (be16 packet 36)
    rw [← hm, hs s hp]
    cases s.isPortBlocked (be16 packet 36) <;> simp
  · intro hp garbage
    have hr := hs ((PacketInspector.init garbage).addBlockedPort 22).2 (Or.inl ⟨hp, rfl⟩)
    constructor
    · intro h22
      rw [hr, be16, h22]
      simp [PacketInspector.isPortBlocked, PacketInspector.addBlockedPort,
        PacketInspector.init]
    · intro h23
      rw [hr, be16, h23]
      simp [PacketInspector.isPortBlocked, PacketInspector.addBlockedPort,
        PacketInspector.init]

/-- Witness for C8: with port 22 blocked, the TCP sample frame to port 22 is rejected and
the one to port 23 is accepted. -/
theorem inspectPacket_port_block_witness :
    inspectorNoSSH.inspectPacket frameTCP22 38 = some false ∧
      inspectorNoSSH.inspectPacket frameTCP23 38 = some true := by
  have h22 := (inspectPacket_port_block inspectorNoSSH frameTCP22 38 (by decide) (by decide)
    (by decide)).1 (Or.inl ⟨by decide, rfl⟩)
  have h23 := (inspectPacket_port_block inspectorNoSSH frameTCP23 38 (by decide) (by decide)
    (by decide)).1 (Or.inl ⟨by decide, rfl⟩)
  refine ⟨h22.1.mpr ⟨0, by decide, by decide⟩, h23.2.mpr ?_⟩
  rintro ⟨i, hi, h⟩
  have hi0 : i = 0 := by
    have : i < 1 := hi
    omega
  subst hi0
  revert h
  decide

/-! ## Cipher layer: the loops -/

theorem wrapInt32_eq_self (x : Int) (h0 : -2147483648 ≤ x) (h1 : x < 2147483648) :
    wrapInt32 x = x := by
  unfold wrapInt32
  omega

theorem Block.length_val (b : Block) : b.val.length = 16 := b.property

theorem mapChunks_length (f : Block → Block) :
    ∀ (m : Nat) (r : List Byte), (mapChunks f m r).length = r.length := by
  intro m
  induction m with
  | zero => intro r; rfl
  | succ m ih =>
    intro r
    unfold mapChunks
    split
    · rename_i h
      rw [List.length_append, ih, List.length_drop, Block.length_val]
      omega
    · rfl

/-- The block call at the end of an already processed part `A` rewrites the first 16 bytes
of the rest. -/
theorem VPNEncryption.cryptBlockAt_append (L : AesLibrary) (ctx : L.Context) (mode : AesMode)
    (A rest : List Byte) (h : 16 ≤ rest.length) :
    VPNEncryption.cryptBlockAt L ctx mode (A ++ rest) (A.length : Int) =
      some (A ++ (L.mbedtls_aes_crypt_ecb ctx mode
        ⟨rest.take 16, by rw [List.length_take]; omega⟩).val ++ rest.drop 16) := by
  unfold VPNEncryption.cryptBlockAt
  have hc : (0 : Int) ≤ (A.length : Int) ∧
      ((A.length : Int)).toNat + 16 ≤ (A ++ rest).length := by
    rw [List.length_append, Int.toNat_ofNat]
    omega
  rw [dif_pos hc]
  simp only [Int.toNat_ofNat, List.take_left, List.drop_left, List.drop_append]

/-- The loop of `encryptPacket` and `decryptPacket`, started at the end of the processed part
`A` with exactly `m` passes left, all inside the buffer and the `int` range: it returns, and
the buffer it leaves is `A` followed by the block-wise image of the rest. -/
theorem VPNEncryption.cryptLoop_chunks (L : AesLibrary) (ctx : L.Context) (mode : AesMode)
    (bound : Int) :
    ∀ (m fuel : Nat) (A rest : List Byte), m ≤ fuel → 16 * m ≤ rest.length →
      (A.length : Int) + 16 * m < 2147483648 → bound ≤ (A.length : Int) + 16 * m →
      (∀ j : Nat, j < m → (A.length : Int) + 16 * j < bound) →
      VPNEncryption.cryptLoop L ctx mode bound fuel (A.length : Int) (A ++ rest) =
        some (A ++ mapChunks (L.mbedtls_aes_crypt_ecb ctx mode) m rest) := by
  intro m
  induction m with
  | zero =>
    intro fuel A rest _ _ _ hb _
    have hnb : ¬ ((A.length : Int) < bound) := by omega
    cases fuel with
    | zero => simp only [VPNEncryption.cryptLoop, if_neg hnb, mapChunks]
    | succ fuel => simp only [VPNEncryption.cryptLoop, if_neg hnb, mapChunks]
  | succ m ih =>
    intro fuel A rest hf hlen hrange hb hlt
    cases fuel with
    | zero => omega
    | succ fuel =>
      have h16 : 16 ≤ rest.length := by omega
      have hi : (A.length : Int) < bound := by
        have := hlt 0 (by omega)
        simpa using this
      have hw : wrapInt32 ((A.length : Int) + 16) = (A.length : Int) + 16 :=
        wrapInt32_eq_self _ (by omega) (by omega)
      simp only [VPNEncryption.cryptLoop, if_pos hi,
        VPNEncryption.cryptBlockAt_append L ctx mode A rest h16, hw]
      have hA : ((A ++ (L.mbedtls_aes_crypt_ecb ctx mode
          ⟨rest.take 16, by rw [List.length_take]; omega⟩).val).length : Int) =
          (A.length : Int) + 16 := by
        rw [List.length_append, Block.length_val]
        push_cast
        rfl
      rw [← hA]
      rw [ih fuel _ (rest.drop 16) (by omega) (by rw [List.length_drop]; omega)
        (by rw [hA]; omega) (by rw [hA]; omega)
        (by
          intro j hj
          rw [hA]
          have := hlt (j + 1) (by omega)
          push_cast at this
          omega)]
      simp only [mapChunks, dif_pos h16, List.append_assoc]

theorem mapChunks_succ (f : Block → Block) (m : Nat) (r : List Byte) (h : 16 ≤ r.length) :
    mapChunks f (m + 1) r =
      (f ⟨r.take 16, by rw [List.length_take]; omega⟩).val ++ mapChunks f m (r.drop 16) := by
  rw [mapChunks, dif_pos h]

/-- Two block-wise passes over the same chunks, the second undoing the first on each block,
restore the buffer. -/
theorem mapChunks_inverse (f g : Block → Block) (hgf : ∀ b, g (f b) = b) :
    ∀ (m : Nat) (r : List Byte), mapChunks g m (mapChunks f m r) = r := by
  intro m
  induction m with
  | zero => intro r; rfl
  | succ m ih =>
    intro r
    by_cases h : 16 ≤ r.length
    · have hl : (f ⟨r.take 16, by rw [List.length_take]; omega⟩).val.length = 16 :=
        Block.length_val _
      have e1 : mapChunks f (m + 1) r =
          (f ⟨r.take 16, by rw [List.length_take]; omega⟩).val ++
            mapChunks f m (r.drop 16) := mapChunks_succ f m r h
      have h2 : 16 ≤ (mapChunks f (m + 1) r).length := by
        rw [mapChunks_length]
        exact h
      have et : (mapChunks f (m + 1) r).take 16 =
          (f ⟨r.take 16, by rw [List.length_take]; omega⟩).val := by
        rw [e1]
        exact List.take_left' hl
      have ed : (mapChunks f (m + 1) r).drop 16 = mapChunks f m (r.drop 16) := by
        rw [e1]
        exact List.drop_left' hl
      have eb : (⟨(mapChunks f (m + 1) r).take 16, by rw [List.length_take]; omega⟩ : Block) =
          f ⟨r.take 16, by rw [List.length_take]; omega⟩ := Subtype.ext et
      have e2 : mapChunks g (m + 1) (mapChunks f (m + 1) r) =
          (g ⟨(mapChunks f (m + 1) r).take 16, by rw [List.length_take]; omega⟩).val ++
            mapChunks g m ((mapChunks f (m + 1) r).drop 16) :=
        mapChunks_succ g m _ h2
      rw [e2, eb, hgf, ed, ih]
      exact List.take_append_drop 16 r
    · have e1 : ∀ k : Block → Block, mapChunks k (m + 1) r = r := by
        intro k
        rw [mapChunks, dif_neg h]
      rw [e1 f, e1 g]

/-- An enabled `encryptPacket` is its loop, run up to the padded length. -/
theorem VPNEncryption.encryptPacket_enabled {L : AesLibrary} (s : VPNEncryption L)
    (packet : List Byte) (length : Int) (he : s.enabled = true) :
    s.encryptPacket packet length =
      (VPNEncryption.cryptLoop L s.aes_ctx .MBEDTLS_AES_ENCRYPT
        ((Int.tdiv (wrapInt32 (length + 15)) 16) * 16) (packet.length / 16 + 1) 0 packet).map
        (fun p => (true, p)) := by
  unfold VPNEncryption.encryptPacket
  rw [he, if_neg (by decide)]
  dsimp only
  cases VPNEncryption.cryptLoop L s.aes_ctx .MBEDTLS_AES_ENCRYPT
        ((Int.tdiv (wrapInt32 (length + 15)) 16) * 16) (packet.length / 16 + 1) 0 packet <;> rfl

/-- An enabled `decryptPacket` is its loop, run up to `length`. -/
theorem VPNEncryption.decryptPacket_enabled {L : AesLibrary} (s : VPNEncryption L)
    (packet : List Byte) (length : Int) (he : s.enabled = true) :
    s.decryptPacket packet length =
      (VPNEncryption.cryptLoop L s.aes_ctx .MBEDTLS_AES_DECRYPT length
        (packet.length / 16 + 1) 0 packet).map (fun p => (true, p)) := by
  unfold VPNEncryption.decryptPacket
  rw [he, if_neg (by decide)]
  cases VPNEncryption.cryptLoop L s.aes_ctx .MBEDTLS_AES_DECRYPT length
        (packet.length / 16 + 1) 0 packet <;> rfl

/-- On an enabled context `encryptPacket` with a length `n` in the overflow-free range and a
buffer that holds the padded length returns true and leaves the block-wise encryption of the
first `(n + 15) / 16` blocks. -/
theorem VPNEncryption.encryptPacket_chunks {L : AesLibrary} (s : VPNEncryption L)
    (packet : List Byte) (n : Nat) (he : s.enabled = true) (hn : n ≤ 2147483632)
    (hbuf : 16 * ((n + 15) / 16) ≤ packet.length) :
    s.encryptPacket packet (n : Int) =
      some (true, mapChunks (L.mbedtls_aes_crypt_ecb s.aes_ctx .MBEDTLS_AES_ENCRYPT)
        ((n + 15) / 16) packet) := by
  have hw : wrapInt32 ((n : Int) + 15) = (n : Int) + 15 :=
    wrapInt32_eq_self _ (by omega) (by omega)
  have hd : Int.tdiv ((n : Int) + 15) 16 = (((n + 15) / 16 : Nat) : Int) := by
    rw [Int.tdiv_eq_ediv (by omega) (by omega)]
    push_cast
    rfl
  have hloop := VPNEncryption.cryptLoop_chunks L s.aes_ctx .MBEDTLS_AES_ENCRYPT
    ((((n + 15) / 16 : Nat) : Int) * 16) ((n + 15) / 16) (packet.length / 16 + 1) [] packet
    (by omega) hbuf (by rw [List.length_nil]; omega)
    (by rw [List.length_nil]; omega)
    (by
      intro j hj
      rw [List.length_nil]
      omega)
  rw [List.length_nil, List.nil_append, List.nil_append, Nat.cast_zero] at hloop
  rw [VPNEncryption.encryptPacket_enabled s packet n he, hw, hd, hloop]
  rfl

/-- On an enabled context `decryptPacket` with a length `n` in the overflow-free range and a
buffer that holds the padded length returns true and leaves the block-wise decryption of the
first `(n + 15) / 16` blocks. -/
theorem VPNEncryption.decryptPacket_chunks {L : AesLibrary} (s : VPNEncryption L)
    (packet : List Byte) (n : Nat) (he : s.enabled = true) (hn : n ≤ 2147483632)
    (hbuf : 16 * ((n + 15) / 16) ≤ packet.length) :
    s.decryptPacket packet (n : Int) =
      some (true, mapChunks (L.mbedtls_aes_crypt_ecb s.aes_ctx .MBEDTLS_AES_DECRYPT)
        ((n + 15) / 16) packet) := by
  have hloop := VPNEncryption.cryptLoop_chunks L s.aes_ctx .MBEDTLS_AES_DECRYPT
    (n : Int) ((n + 15) / 16) (packet.length / 16 + 1) [] packet
    (by omega) hbuf (by rw [List.length_nil]; omega)
    (by rw [List.length_nil]; omega)
    (by
      intro j hj
      rw [List.length_nil]
      omega)
  rw [List.length_nil, List.nil_append, List.nil_append, Nat.cast_zero] at hloop
  rw [VPNEncryption.decryptPacket_enabled s packet n he, hloop]
  rfl

/-- The wrapper loops are sound for the round trip: over any library in which the decrypt
call undoes the encrypt call on the context that `mbedtls_aes_setkey_enc` leaves, a buffer of
a whole number of blocks comes back unchanged. -/
theorem VPNEncryption.roundTrip_of_inverse (L : AesLibrary) (key packet : List Byte)
    (hkey : 32 ≤ key.length) (hmul : packet.length % 16 = 0)
    (hrange : packet.length < 2147483648)
    (hret : (L.mbedtls_aes_setkey_enc L.mbedtls_aes_init (key.take 32)).1 = 0)
    (hinv : ∀ b, L.mbedtls_aes_crypt_ecb
        (L.mbedtls_aes_setkey_enc L.mbedtls_aes_init (key.take 32)).2 .MBEDTLS_AES_DECRYPT
        (L.mbedtls_aes_crypt_ecb
          (L.mbedtls_aes_setkey_enc L.mbedtls_aes_init (key.take 32)).2 .MBEDTLS_AES_ENCRYPT b)
        = b) :
    VPNEncryption.roundTrip L key packet (packet.length : Int) = some packet := by
  have hset : (VPNEncryption.init L (List.replicate 32 0)).setKey key 32 =
      some (true, { key := key.take 32,
                    aes_ctx := (L.mbedtls_aes_setkey_enc L.mbedtls_aes_init (key.take 32)).2,
                    enabled := true }) := by
    unfold VPNEncryption.setKey VPNEncryption.init
    rw [if_neg (show ¬ (32 : Nat) ≠ 32 by decide), if_neg (show ¬ key.length < 32 by omega)]
    dsimp only
    rw [if_neg (show ¬ (L.mbedtls_aes_setkey_enc L.mbedtls_aes_init (key.take 32)).1 ≠ 0 from
      fun h => h hret)]
  have hn : packet.length ≤ 2147483632 := by omega
  have hm : 16 * ((packet.length + 15) / 16) = packet.length := by omega
  have henc := VPNEncryption.encryptPacket_chunks
    ({ key := key.take 32,
       aes_ctx := (L.mbedtls_aes_setkey_enc L.mbedtls_aes_init (key.take 32)).2,
       enabled := true } : VPNEncryption L) packet packet.length rfl hn (by omega)
  have hdec := VPNEncryption.decryptPacket_chunks
    ({ key := key.take 32,
       aes_ctx := (L.mbedtls_aes_setkey_enc L.mbedtls_aes_init (key.take 32)).2,
       enabled := true } : VPNEncryption L)
    (mapChunks (L.mbedtls_aes_crypt_ecb
      (L.mbedtls_aes_setkey_enc L.mbedtls_aes_init (key.take 32)).2 .MBEDTLS_AES_ENCRYPT)
      ((packet.length + 15) / 16) packet) packet.length rfl hn
    (by rw [mapChunks_length]; omega)
  rw [mapChunks_inverse
    (L.mbedtls_aes_crypt_ecb
      (L.mbedtls_aes_setkey_enc L.mbedtls_aes_init (key.take 32)).2 .MBEDTLS_AES_ENCRYPT)
    (L.mbedtls_aes_crypt_ecb
      (L.mbedtls_aes_setkey_enc L.mbedtls_aes_init (key.take 32)).2 .MBEDTLS_AES_DECRYPT)
    hinv] at hdec
  unfold VPNEncryption.roundTrip
  rw [hset, Option.some_bind, if_pos rfl, henc, Option.some_bind, hdec]
  rfl

/-! ## Cipher layer: the sample AES -/

/-- The sample encryption reproduces the AES-256 example of FIPS-197 appendix C.3. -/
theorem Mbedtls.encrypt_fips197 :
    (Mbedtls.mbedtls_internal_aes_encrypt
      (Mbedtls.setkey_enc256 Mbedtls.library.mbedtls_aes_init fipsKey).2
      ⟨fipsPlain, rfl⟩).val = fipsCipher := by
  decide!

/-- The sample decryption over the decryption round keys inverts that example. -/
theorem Mbedtls.decrypt_fips197 :
    (Mbedtls.mbedtls_internal_aes_decrypt
      (Mbedtls.setkey_dec256 Mbedtls.library.mbedtls_aes_init fipsKey).2
      ⟨fipsCipher, rfl⟩).val = fipsPlain := by
  decide!

/-- The reverse S-box inverts the forward S-box on every byte. -/
theorem Mbedtls.RSb_FSb : ∀ i, i < 256 → Mbedtls.RSb.getD (Mbedtls.FSb.getD i 0) 0 = i := by
  decide!

/-! ## Cipher layer: claims -/

/-- Restoring blocks is a requirement on the primitive, not a consequence of the interface:
over the sample with the schedule fixed at key setup, `setKey(fipsKey, 32)` succeeds,
`encryptPacket` turns the 16-byte buffer `fipsPlain` into `fipsCipher`, and `decryptPacket`
on that context turns `fipsCipher` into `fipsScrambled`. -/
theorem roundTrip_reference_fails :
    (VPNEncryption.init Mbedtls.library (List.replicate 32 0)).setKey fipsKey 32 =
        some (true, vpnKeyed) ∧
      vpnKeyed.encryptPacket fipsPlain 16 = some (true, fipsCipher) ∧
      vpnKeyed.decryptPacket fipsCipher 16 = some (true, fipsScrambled) ∧
      VPNEncryption.roundTrip Mbedtls.library fipsKey fipsPlain 16 = some fipsScrambled ∧
      fipsScrambled ≠ fipsPlain := by
  refine ⟨rfl, ?_, ?_, ?_, ?_⟩
  · decide!
  · decide!
  · decide!
  · decide!

/-- C10: for every context and every `keyLen` other than 32, `setKey` returns false and the
state afterwards has the same stored key, cipher context and enabled flag, so `encryptPacket`
and `decryptPacket` give the same results as before the call. -/
theorem setKey_wrong_length_unchanged (L : AesLibrary) (s : VPNEncryption L)
    (newKey : List Byte) (keyLen : Nat) (h : keyLen ≠ 32) :
    ∃ s1, s.setKey newKey keyLen = some (false, s1) ∧
      s1.key = s.key ∧ s1.aes_ctx = s.aes_ctx ∧ s1.enabled = s.enabled ∧
      ∀ packet length,
        s1.encryptPacket packet length = s.encryptPacket packet length ∧
        s1.decryptPacket packet length = s.decryptPacket packet length := by
  refine ⟨s, ?_, rfl, rfl, rfl, fun _ _ => ⟨rfl, rfl⟩⟩
  unfold VPNEncryption.setKey
  rw [if_pos h]

/-- Witness for C10: the enabled sample context rejects a 31-byte and a 33-byte key, stays
enabled and still encrypts the FIPS-197 block as before. -/
theorem setKey_wrong_length_unchanged_witness :
    (∃ s1, vpnKeyed.setKey (List.replicate 31 0xFF) 31 = some (false, s1) ∧
      s1.enabled = true ∧ s1.encryptPacket fipsPlain 16 = some (true, fipsCipher)) ∧
    (∃ s1, vpnKeyed.setKey (List.replicate 33 0xFF) 33 = some (false, s1) ∧
      s1.enabled = true ∧ s1.encryptPacket fipsPlain 16 = some (true, fipsCipher)) := by
  have henc : vpnKeyed.encryptPacket fipsPlain 16 = some (true, fipsCipher) := by decide!
  obtain ⟨s1, h1, _, _, he1, hp1⟩ :=
    setKey_wrong_length_unchanged Mbedtls.library vpnKeyed (List.replicate 31 0xFF) 31
      (by decide)
  obtain ⟨s2, h2, _, _, he2, hp2⟩ :=
    setKey_wrong_length_unchanged Mbedtls.library vpnKeyed (List.replicate 33 0xFF) 33
      (by decide)
  exact ⟨⟨s1, h1, he1, by rw [(hp1 fipsPlain 16).1]; exact henc⟩,
    ⟨s2, h2, he2, by rw [(hp2 fipsPlain 16).1]; exact henc⟩⟩

/-- C11: on a disabled context, with or without a key, `encryptPacket` and `decryptPacket`
return true and leave every buffer as it is, for every length. -/
theorem disabled_passthrough (L : AesLibrary) (s : VPNEncryption L) (packet : List Byte)
    (length : Int) (h : s.enabled = false) :
    s.encryptPacket packet length = some (true, packet) ∧
      s.decryptPacket packet length = some (true, packet) := by
  constructor
  · unfold VPNEncryption.encryptPacket
    rw [h]
    exact if_pos rfl
  · unfold VPNEncryption.decryptPacket
    rw [h]
    exact if_pos rfl

/-- Witness for C11: a fresh context, and a keyed context switched off, pass the FIPS-197
block through in both directions, also for a negative length. -/
theorem disabled_passthrough_witness :
    ((VPNEncryption.init Mbedtls.library zeroKey).encryptPacket fipsPlain 16
        = some (true, fipsPlain) ∧
      (VPNEncryption.init Mbedtls.library zeroKey).decryptPacket fipsPlain 16
        = some (true, fipsPlain)) ∧
    ((vpnKeyed.setEnabled false).encryptPacket fipsPlain (-5) = some (true, fipsPlain) ∧
      (vpnKeyed.setEnabled false).decryptPacket fipsPlain (-5) = some (true, fipsPlain)) :=
  ⟨disabled_passthrough Mbedtls.library _ fipsPlain 16 rfl,
    disabled_passthrough Mbedtls.library _ fipsPlain (-5) rfl⟩

/-- C12: `setKey` returns true only for `keyLen = 32`; and for `keyLen = 32`, a `newKey` of
at least 32 readable bytes and a key setup that returns 0, it returns true, the stored key is
the first 32 bytes of `newKey`, the cipher context is the one the setup derived from those
bytes, and the context is enabled, whatever the state was before. -/
theorem setKey_success (L : AesLibrary) (s : VPNEncryption L) (newKey : List Byte)
    (keyLen : Nat) :
    (∀ s1, s.setKey newKey keyLen = some (true, s1) → keyLen = 32) ∧
    (keyLen = 32 → 32 ≤ newKey.length →
      (L.mbedtls_aes_setkey_enc s.aes_ctx (newKey.take 32)).1 = 0 →
      s.setKey newKey keyLen =
        some (true, { key := newKey.take 32,
                      aes_ctx := (L.mbedtls_aes_setkey_enc s.aes_ctx (newKey.take 32)).2,
                      enabled := true })) := by
  constructor
  · intro s1 h
    by_contra hne
    unfold VPNEncryption.setKey at h
    rw [if_pos hne] at h
    cases h
  · intro hk hlen hret
    unfold VPNEncryption.setKey
    rw [if_neg (fun hne => hne hk), if_neg (show ¬ newKey.length < 32 by omega)]
    exact if_neg (fun hne => hne hret)

/-- Witness for C12: re-keying the context keyed with the FIPS-197 key by the all-zero key
succeeds on the sample library and stores the new key. -/
theorem setKey_success_witness :
    ∃ s1, vpnKeyed.setKey zeroKey 32 = some (true, s1) ∧ s1.key = zeroKey ∧
      s1.enabled = true ∧
      s1.aes_ctx = (Mbedtls.setkey_enc256 vpnKeyed.aes_ctx zeroKey).2 :=
  ⟨_, (setKey_success Mbedtls.library vpnKeyed zeroKey 32).2 rfl (by decide) rfl, rfl, rfl, rfl⟩

/-- What `setKey` does when the key setup fails: it returns false after the key and the
cipher context have been overwritten, and the enabled flag keeps the value it had. -/
theorem VPNEncryption.setKey_setup_failure {L : AesLibrary} (s : VPNEncryption L)
    (newKey : List Byte) (hlen : 32 ≤ newKey.length)
    (hfail : (L.mbedtls_aes_setkey_enc s.aes_ctx (newKey.take 32)).1 ≠ 0) :
    s.setKey newKey 32 =
      some (false, { s with
        key := newKey.take 32,
        aes_ctx := (L.mbedtls_aes_setkey_enc s.aes_ctx (newKey.take 32)).2 }) := by
  unfold VPNEncryption.setKey
  rw [if_neg (fun hne => hne rfl), if_neg (show ¬ newKey.length < 32 by omega)]
  exact if_pos hfail

/-- C13 (fails on the code): on a library whose key setup refuses the all-zero key, a
context that `setKey(fipsKey, 32)` has enabled is re-keyed with the all-zero key; the key
setup returns non-zero and `setKey` returns false, but the context is still enabled
afterwards, now holding the refused key. -/
theorem setKey_failure_stays_enabled :
    (VPNEncryption.init strictLibrary zeroKey).setKey fipsKey 32 =
        some (true, vpnStrictKeyed) ∧
      (strictLibrary.mbedtls_aes_setkey_enc vpnStrictKeyed.aes_ctx (zeroKey.take 32)).1 ≠ 0 ∧
      ∃ s1, vpnStrictKeyed.setKey zeroKey 32 = some (false, s1) ∧ s1.isEnabled = true ∧
        s1.key = zeroKey := by
  refine ⟨rfl, by decide, _, VPNEncryption.setKey_setup_failure vpnStrictKeyed zeroKey
    (by decide) (by decide), rfl, rfl⟩

/-- The destructor leaves the stored key as it is, on every library. -/
theorem VPNEncryption.destroy_key {L : AesLibrary} (s : VPNEncryption L) :
    s.destroy.key = s.key := rfl

/-- C15 (fails on the code): after the destructor has run on the context keyed with the
FIPS-197 key, the cipher context of the sample library is zeroed, but the stored key
field still holds the 32 key bytes, which are not all zero. -/
theorem destroy_keeps_key :
    vpnKeyed.destroy.aes_ctx = { nr := 0, buf := List.replicate 68 0 } ∧
      vpnKeyed.destroy.key = fipsKey ∧ vpnKeyed.destroy.key ≠ List.replicate 32 0 := by
  refine ⟨rfl, rfl, ?_⟩
  decide

/-! ## Packet inspector: behaviour -/

/-- C17: the decision never looks at the version/IHL byte: for every policy state and any
two frames of equal length that agree at every offset other than 14, `inspectPacket` gives
the same result, so the destination port is taken from offsets 36-37 whatever header length
the frame announces. -/
theorem inspectPacket_ignores_ihl (s : PacketInspector) (p q : List Byte) (length : Int)
    (_hlen : p.length = q.length) (hsame : ∀ i, i ≠ 14 → p[i]? = q[i]?) :
    s.inspectPacket p length = s.inspectPacket q length := by
  have h12 : readU16 p 12 = readU16 q 12 := by
    unfold readU16
    rw [hsame 12 (by decide), hsame 13 (by decide)]
  have h36 : readU16 p 36 = readU16 q 36 := by
    unfold readU16
    rw [hsame 36 (by decide), hsame 37 (by decide)]
  unfold PacketInspector.inspectPacket
  rw [h12, h36, hsame 23 (by decide)]

/-- Witness for C17: with port 22 blocked, the TCP frame whose six-word IP header puts the
real destination port 22 at offsets 40-41 is accepted, exactly as the same bytes under a
five-word header are: offsets 36-37 hold 0. -/
theorem inspectPacket_ignores_ihl_witness :
    inspectorNoSSH.inspectPacket (frameOptions 0x46) 42 =
        inspectorNoSSH.inspectPacket (frameOptions 0x45) 42 ∧
      inspectorNoSSH.inspectPacket (frameOptions 0x46) 42 = some true ∧
      be16 (frameOptions 0x46) 40 = 22 := by
  refine ⟨inspectPacket_ignores_ihl inspectorNoSSH (frameOptions 0x46) (frameOptions 0x45) 42
    rfl ?_, by decide, by decide⟩
  intro i hi
  have h : ∀ j : Fin 43, j.val ≠ 14 →
      (frameOptions 0x46)[j.val]? = (frameOptions 0x45)[j.val]? := by decide
  by_cases h43 : i < 43
  · exact h ⟨i, h43⟩ hi
  · rw [List.getElem?_eq_none (by simp [frameOptions]; omega),
      List.getElem?_eq_none (by simp [frameOptions]; omega)]

/-- The decision of `inspectPacket` on an IPv4 frame of 14 to 33 bytes inside the buffer. -/
theorem PacketInspector.inspectPacket_ipv4_short (s : PacketInspector) (packet : List Byte)
    (length : Int) (hlen : 14 ≤ length) (hshort : length < 34)
    (hbuf : length ≤ packet.length) (htype : be16 packet 12 = 0x0800) :
    s.inspectPacket packet length = some false := by
  obtain ⟨raw, hraw, hnt⟩ := ntohs_readU16 packet 12 (by omega)
  unfold PacketInspector.inspectPacket
  rw [if_neg (by omega), hraw]
  simp only [hnt]
  rw [if_pos htype, if_pos hshort]

/-- The port check of `inspectPacket` in closed form, on a frame inside the buffer. -/
theorem PacketInspector.portCheck_closed (s : PacketInspector) (packet : List Byte)
    (length : Int) (hbuf : length ≤ packet.length) :
    (if length ≥ 38 then
      match readU16 packet 36 with
      | none => none
      | some rawPort => if s.isPortBlocked (ntohs rawPort) then some false else some true
    else some true) =
      some (!(decide (38 ≤ length) && s.isPortBlocked (be16 packet 36))) := by
  by_cases h38 : 38 ≤ length
  · rw [s.portCheck_eq packet length h38 hbuf, decide_eq_true h38, Bool.true_and]
  · rw [if_neg (show ¬ length ≥ 38 from h38), decide_eq_false h38, Bool.false_and]
    rfl

/-- The table behind the protocol and port steps: the nested tests of `inspectPacket` on the
flags, the protocol number and the outcome of the port check. -/
theorem decision_table (bI bU bT pb c : Bool) (pr : Nat) :
    ∃ b, (if (bI && pr == 1) = true then some false
        else if (bU && pr == 17) = true then some false
        else if (bT && pr == 6) = true then some false
        else if (pr == 6 || pr == 17) = true then some (!(c && pb))
        else some true) = some b ∧
      (b = true ↔
        (¬ ((pr = 1 ∧ bI = true) ∨ (pr = 6 ∧ bT = true) ∨ (pr = 17 ∧ bU = true)) ∧
          ¬ ((pr = 6 ∨ pr = 17) ∧ c = true ∧ pb = true))) := by
  by_cases h1 : pr = 1
  · subst h1
    cases bI <;> simp
  · by_cases h6 : pr = 6
    · subst h6
      cases bT <;> cases c <;> cases pb <;> simp
    · by_cases h17 : pr = 17
      · subst h17
        cases bU <;> cases c <;> cases pb <;> simp
      · simp [h1, h6, h17]

/-- On a frame inside the buffer `inspectPacket` returns a decision, and the decision is
true exactly when the reference decision accepts. -/
theorem PacketInspector.inspectPacket_characterised (s : PacketInspector)
    (packet : List Byte) (length : Int) (hbuf : length ≤ packet.length) :
    ∃ b, s.inspectPacket packet length = some b ∧
      (b = true ↔ s.ReferenceAccepts packet length) := by
  by_cases h14 : length < 14
  · refine ⟨false, ?_, ?_⟩
    · unfold PacketInspector.inspectPacket
      rw [if_pos h14]
    · constructor
      · intro h
        cases h
      · rintro ⟨h, _⟩
        omega
  · by_cases ht : be16 packet 12 = 0x0800
    · by_cases h34 : length < 34
      · refine ⟨false, s.inspectPacket_ipv4_short packet length (by omega) h34 hbuf ht, ?_⟩
        constructor
        · intro h
          cases h
        · rintro ⟨_, h | ⟨h, _⟩⟩
          · exact absurd ht h
          · omega
      · have hE := s.inspectPacket_ipv4 packet length (by omega) hbuf ht
        rw [s.portCheck_closed packet length hbuf] at hE
        obtain ⟨b, hb, hiff⟩ := decision_table s.blockICMP s.blockUDP s.blockTCP
          (s.isPortBlocked (be16 packet 36)) (decide (38 ≤ length)) (packet.getD 23 0).val
        refine ⟨b, hE.trans hb, hiff.trans ?_⟩
        rw [decide_eq_true_iff, s.isPortBlocked_iff]
        unfold PacketInspector.ReferenceAccepts PacketInspector.ProtocolFlagged
        constructor
        · rintro ⟨hf, hp⟩
          exact ⟨by omega, Or.inr ⟨by omega, hf, hp⟩⟩
        · rintro ⟨_, h | ⟨_, hf, hp⟩⟩
          · exact absurd ht h
          · exact ⟨hf, hp⟩
    · refine ⟨true, s.inspectPacket_nonIP packet length (by omega) hbuf ht, ?_⟩
      constructor
      · intro _
        exact ⟨by omega, Or.inl ht⟩
      · intro _
        rfl

/-- C16: on every buffer that holds at least `length` bytes, `inspectPacket` returns true
exactly when the six-step reference decision accepts, and false exactly when it does not. In
particular an IPv4 frame of 14 to 33 bytes is rejected; an IPv4 frame of at least 34 bytes
whose protocol is none of 1, 6, 17 is accepted; and on a TCP or UDP frame of 34 to 37 bytes
the decision is the same for every content of the blocked-port list, and it is acceptance
unless the flag of the protocol is set. -/
theorem inspectPacket_equals_reference (s : PacketInspector) (packet : List Byte)
    (length : Int) (hbuf : length ≤ packet.length) :
    (s.inspectPacket packet length = some true ↔ s.ReferenceAccepts packet length) ∧
    (s.inspectPacket packet length = some false ↔ ¬ s.ReferenceAccepts packet length) ∧
    (be16 packet 12 = 0x0800 → 14 ≤ length → length < 34 →
      s.inspectPacket packet length = some false) ∧
    (be16 packet 12 = 0x0800 → 34 ≤ length → (packet.getD 23 0).val ≠ 1 →
      (packet.getD 23 0).val ≠ 6 → (packet.getD 23 0).val ≠ 17 →
      s.inspectPacket packet length = some true) ∧
    (be16 packet 12 = 0x0800 → 34 ≤ length → length < 38 →
      ((packet.getD 23 0).val = 6 ∨ (packet.getD 23 0).val = 17) →
      ∀ ports count,
        ({ s with blockedPorts := ports, blockedPortCount := count } :
            PacketInspector).inspectPacket packet length = s.inspectPacket packet length ∧
        (¬ s.ProtocolFlagged (packet.getD 23 0).val →
          ({ s with blockedPorts := ports, blockedPortCount := count } :
            PacketInspector).inspectPacket packet length = some true)) := by
  have key : ∀ t : PacketInspector,
      (t.inspectPacket packet length = some true ↔ t.ReferenceAccepts packet length) ∧
      (t.inspectPacket packet length = some false ↔ ¬ t.ReferenceAccepts packet length) := by
    intro t
    obtain ⟨b, hb, hiff⟩ := t.inspectPacket_characterised packet length hbuf
    rw [hb, ← hiff]
    cases b <;> simp
  refine ⟨(key s).1, (key s).2, ?_, ?_, ?_⟩
  · intro ht h14 h34
    exact s.inspectPacket_ipv4_short packet length h14 h34 hbuf ht
  · intro ht h34 h1 h6 h17
    refine (key s).1.mpr ⟨by omega, Or.inr ⟨h34, ?_, ?_⟩⟩
    · rintro (⟨h, _⟩ | ⟨h, _⟩ | ⟨h, _⟩)
      · exact h1 h
      · exact h6 h
      · exact h17 h
    · rintro ⟨h | h, _⟩
      · exact h6 h
      · exact h17 h
  · intro ht h34 h38 _ ports count
    constructor
    · have hno : ¬ length ≥ 38 := by omega
      rw [PacketInspector.inspectPacket_ipv4 _ packet length h34 hbuf ht,
        s.inspectPacket_ipv4 packet length h34 hbuf ht, if_neg hno, if_neg hno]
    · intro hf
      refine (key _).1.mpr ⟨by omega, Or.inr ⟨h34, hf, ?_⟩⟩
      rintro ⟨_, h, _⟩
      omega

/-- Witness for C16: with port 22 blocked, the TCP frame to port 22 cut to 36 bytes is
accepted, and the UDP frame cut to 20 bytes is rejected. -/
theorem inspectPacket_equals_reference_witness :
    inspectorNoSSH.inspectPacket frameTCP22 36 = some true ∧
      inspectorNoSSH.inspectPacket frameUDP 20 = some false := by
  have hf : ¬ inspectorNoSSH.ProtocolFlagged (frameTCP22.getD 23 0).val := by
    unfold PacketInspector.ProtocolFlagged
    decide
  exact ⟨((inspectPacket_equals_reference inspectorNoSSH frameTCP22 36 (by decide)).2.2.2.2
      (by decide) (by decide) (by decide) (Or.inl (by decide))
      inspectorNoSSH.blockedPorts inspectorNoSSH.blockedPortCount).2 hf,
    (inspectPacket_equals_reference inspectorNoSSH frameUDP 20 (by decide)).2.2.1
      (by decide) (by decide) (by decide)⟩

/-- The reference decision only depends on the first `length` bytes of the frame. -/
theorem PacketInspector.ReferenceAccepts_congr (s : PacketInspector) (p q : List Byte)
    (length : Int) (hag : ∀ i : Nat, (i : Int) < length → p.getD i 0 = q.getD i 0)
    (h : s.ReferenceAccepts p length) : s.ReferenceAccepts q length := by
  obtain ⟨h14, h⟩ := h
  have e12 : be16 p 12 = be16 q 12 := by
    unfold be16
    rw [hag 12 (by omega), hag 13 (by omega)]
  refine ⟨h14, ?_⟩
  rcases h with h | ⟨h34, hf, hp⟩
  · left
    rw [← e12]
    exact h
  · right
    have e23 : p.getD 23 0 = q.getD 23 0 := hag 23 (by omega)
    refine ⟨h34, ?_, ?_⟩
    · rw [← e23]
      exact hf
    · rintro ⟨hpr, h38, hin⟩
      have e36 : be16 p 36 = be16 q 36 := by
        unfold be16
        rw [hag 36 (by omega), hag 37 (by omega)]
      rw [← e23] at hpr
      rw [← e36] at hin
      exact hp ⟨hpr, h38, hin⟩

theorem getD_take_of_lt (packet : List Byte) (n i : Nat) (h : i < n) :
    (packet.take n).getD i 0 = packet.getD i 0 := by
  rw [List.getD_eq_getElem?_getD, List.getD_eq_getElem?_getD, List.getElem?_take_of_lt h]

/-- The element count of a reachable inspector never exceeds the 20 slots of the array. -/
theorem PacketInspector.Reachable.count_le {s : PacketInspector} (h : s.Reachable) :
    s.blockedPortCount ≤ 20 := by
  induction h with
  | init garbage => exact Nat.zero_le 20
  | blockProtocol proto block _ ih =>
    cases proto <;> exact ih
  | @addBlockedPort t port _ ih =>
    unfold PacketInspector.addBlockedPort
    by_cases hc : t.blockedPortCount ≥ 20
    · rw [if_pos hc]
      exact ih
    · rw [if_neg hc]
      show t.blockedPortCount + 1 ≤ 20
      omega

/-- While it stays inside the array, the bounded scan is the scan of `isPortBlocked`. -/
theorem PacketInspector.portScan_eq (s : PacketInspector) (port : Nat) :
    ∀ n i, i + n ≤ 20 →
      s.portScan port n i = some ((List.range' i n).any (fun k => s.blockedPorts k == port)) := by
  intro n
  induction n with
  | zero =>
    intro i _
    rfl
  | succ n ih =>
    intro i hi
    rw [List.range'_succ, List.any_cons]
    unfold PacketInspector.portScan
    rw [if_pos (by omega)]
    cases hk : s.blockedPorts i == port
    · rw [if_neg (by simp), ih (i + 1) (by omega), Bool.false_or]
    · rw [if_pos rfl, Bool.true_or]

/-- C18: on a buffer that holds at least `length` bytes `inspectPacket` never takes an
out-of-bounds branch: it returns a decision, and it returns the same decision on the buffer
cut to its first `length` bytes, so every byte it reads has an index below `length`. On
every reachable state the element count is at most 20 and the port scan with the array
bound made explicit never leaves the array: it returns the result of `isPortBlocked`. -/
theorem inspectPacket_reads_in_bounds (s : PacketInspector) (packet : List Byte)
    (length : Int) (hbuf : length ≤ packet.length) :
    (∃ b, s.inspectPacket packet length = some b ∧
      s.inspectPacket (packet.take length.toNat) length = some b) ∧
    (s.Reachable →
      s.blockedPortCount ≤ 20 ∧
      ∀ port, s.isPortBlockedChecked port = some (s.isPortBlocked port)) := by
  refine ⟨?_, fun hreach => ⟨hreach.count_le, ?_⟩⟩
  · have hcut : length ≤ ((packet.take length.toNat).length : Int) := by
      rw [List.length_take]
      omega
    obtain ⟨b, hb, hiff⟩ := s.inspectPacket_characterised packet length hbuf
    obtain ⟨c, hc, hiffc⟩ := s.inspectPacket_characterised (packet.take length.toNat) length hcut
    have hag : ∀ i : Nat, (i : Int) < length →
        (packet.take length.toNat).getD i 0 = packet.getD i 0 := fun i hi =>
      getD_take_of_lt packet length.toNat i (by omega)
    have hbc : c = b := by
      rw [Bool.eq_iff_iff, hiff, hiffc]
      exact ⟨s.ReferenceAccepts_congr _ _ length hag,
        s.ReferenceAccepts_congr _ _ length (fun i hi => (hag i hi).symm)⟩
    exact ⟨b, hb, hbc ▸ hc⟩
  · intro port
    unfold PacketInspector.isPortBlockedChecked PacketInspector.isPortBlocked
    rw [s.portScan_eq port s.blockedPortCount 0 (by have := hreach.count_le; omega),
      List.range_eq_range']

/-- Witness for C18: the inspector with port 22 blocked decides the 38-byte TCP frame to
port 22 without leaving the buffer, and its bounded port scan finds the port. -/
theorem inspectPacket_reads_in_bounds_witness :
    (∃ b, inspectorNoSSH.inspectPacket frameTCP22 38 = some b) ∧
      inspectorNoSSH.isPortBlockedChecked 22 = some true := by
  obtain ⟨⟨b, hb, _⟩, hscan⟩ :=
    inspectPacket_reads_in_bounds inspectorNoSSH frameTCP22 38 (by decide)
  have hs := (hscan
    (PacketInspector.Reachable.addBlockedPort 22 (PacketInspector.Reachable.init _))).2 22
  exact ⟨⟨b, hb⟩, by rw [hs]; decide⟩

/-! ## Capacity counts insertions -/

/-- After `k ≤ 10` calls `addAllowedMAC a` on a filter with an empty allowed list, the
count is `k` and the first `k` slots hold `a`. -/
theorem MACFilter.iterate_addAllowedMAC (a : MAC) (s0 : MACFilter) (h0 : s0.allowedCount = 0) :
    ∀ k, k ≤ 10 →
      ((fun s => (MACFilter.addAllowedMAC s a).2)^[k] s0).allowedCount = k ∧
      ∀ i, i < k → ((fun s => (MACFilter.addAllowedMAC s a).2)^[k] s0).allowedMACs i = a := by
  intro k
  induction k with
  | zero =>
    intro _
    exact ⟨h0, fun i hi => absurd hi (Nat.not_lt_zero i)⟩
  | succ k ih =>
    intro hk
    obtain ⟨hc, hs⟩ := ih (by omega)
    rw [Function.iterate_succ_apply']
    generalize (fun s => (MACFilter.addAllowedMAC s a).2)^[k] s0 = t at hc hs
    have e : t.addAllowedMAC a = (true, { t with
        allowedMACs := Function.update t.allowedMACs t.allowedCount a,
        allowedCount := t.allowedCount + 1 }) := by
      unfold MACFilter.addAllowedMAC MAX_ALLOWED_MACS
      rw [if_neg (by omega)]
    rw [e]
    refine ⟨by show t.allowedCount + 1 = k + 1; omega, ?_⟩
    intro i hi
    show Function.update t.allowedMACs t.allowedCount a i = a
    by_cases hik : i = t.allowedCount
    · rw [hik, Function.update_same]
    · rw [Function.update_noteq hik]
      exact hs i (by omega)

/-- After `k ≤ 10` calls `addBlockedMAC a` on a filter with an empty blocked list, the
count is `k` and the first `k` slots hold `a`. -/
theorem MACFilter.iterate_addBlockedMAC (a : MAC) (s0 : MACFilter) (h0 : s0.blockedCount = 0) :
    ∀ k, k ≤ 10 →
      ((fun s => (MACFilter.addBlockedMAC s a).2)^[k] s0).blockedCount = k ∧
      ∀ i, i < k → ((fun s => (MACFilter.addBlockedMAC s a).2)^[k] s0).blockedMACs i = a := by
  intro k
  induction k with
  | zero =>
    intro _
    exact ⟨h0, fun i hi => absurd hi (Nat.not_lt_zero i)⟩
  | succ k ih =>
    intro hk
    obtain ⟨hc, hs⟩ := ih (by omega)
    rw [Function.iterate_succ_apply']
    generalize (fun s => (MACFilter.addBlockedMAC s a).2)^[k] s0 = t at hc hs
    have e : t.addBlockedMAC a = (true, { t with
        blockedMACs := Function.update t.blockedMACs t.blockedCount a,
        blockedCount := t.blockedCount + 1 }) := by
      unfold MACFilter.addBlockedMAC MAX_BLOCKED_MACS
      rw [if_neg (by omega)]
    rw [e]
    refine ⟨by show t.blockedCount + 1 = k + 1; omega, ?_⟩
    intro i hi
    show Function.update t.blockedMACs t.blockedCount a i = a
    by_cases hik : i = t.blockedCount
    · rw [hik, Function.update_same]
    · rw [Function.update_noteq hik]
      exact hs i (by omega)

/-- After `k ≤ 20` calls `addBlockedPort port` on an inspector with an empty port list, the
count is `k` and the first `k` slots hold `port`. -/
theorem PacketInspector.iterate_addBlockedPort (port : Nat) (s0 : PacketInspector)
    (h0 : s0.blockedPortCount = 0) :
    ∀ k, k ≤ 20 →
      ((fun s => (PacketInspector.addBlockedPort s port).2)^[k] s0).blockedPortCount = k ∧
      ∀ i, i < k →
        ((fun s => (PacketInspector.addBlockedPort s port).2)^[k] s0).blockedPorts i = port := by
  intro k
  induction k with
  | zero =>
    intro _
    exact ⟨h0, fun i hi => absurd hi (Nat.not_lt_zero i)⟩
  | succ k ih =>
    intro hk
    obtain ⟨hc, hs⟩ := ih (by omega)
    rw [Function.iterate_succ_apply']
    generalize (fun s => (PacketInspector.addBlockedPort s port).2)^[k] s0 = t at hc hs
    have e : t.addBlockedPort port = (true, { t with
        blockedPorts := Function.update t.blockedPorts t.blockedPortCount port,
        blockedPortCount := t.blockedPortCount + 1 }) := by
      unfold PacketInspector.addBlockedPort
      rw [if_neg (by omega)]
    rw [e]
    refine ⟨by show t.blockedPortCount + 1 = k + 1; omega, ?_⟩
    intro i hi
    show Function.update t.blockedPorts t.blockedPortCount port i = port
    by_cases hik : i = t.blockedPortCount
    · rw [hik, Function.update_same]
    · rw [Function.update_noteq hik]
      exact hs i (by omega)

/-- C19: the lists are not de-duplicated. From an empty filter, each of ten calls
`addAllowedMAC a` returns true, the count is then 10, and `addAllowedMAC b` returns false
for every `b`, although the allowed list holds the single address `a`; the same for
`addBlockedMAC` with 10 calls and for `addBlockedPort` with 20 calls. -/
theorem capacity_counts_insertions (a : MAC) (garbageA garbageB : Nat → MAC) (port : Nat)
    (garbageP : Nat → Nat) :
    ((∀ k, k < 10 →
        (((fun s => (MACFilter.addAllowedMAC s a).2)^[k]
          (MACFilter.init garbageA garbageB)).addAllowedMAC a).1 = true) ∧
      ((fun s => (MACFilter.addAllowedMAC s a).2)^[10]
        (MACFilter.init garbageA garbageB)).allowedCount = 10 ∧
      (∀ b, (((fun s => (MACFilter.addAllowedMAC s a).2)^[10]
        (MACFilter.init garbageA garbageB)).addAllowedMAC b).1 = false) ∧
      (∀ x, ((fun s => (MACFilter.addAllowedMAC s a).2)^[10]
        (MACFilter.init garbageA garbageB)).InAllowed x ↔ x = a)) ∧
    ((∀ k, k < 10 →
        (((fun s => (MACFilter.addBlockedMAC s a).2)^[k]
          (MACFilter.init garbageA garbageB)).addBlockedMAC a).1 = true) ∧
      ((fun s => (MACFilter.addBlockedMAC s a).2)^[10]
        (MACFilter.init garbageA garbageB)).blockedCount = 10 ∧
      (∀ b, (((fun s => (MACFilter.addBlockedMAC s a).2)^[10]
        (MACFilter.init garbageA garbageB)).addBlockedMAC b).1 = false) ∧
      (∀ x, ((fun s => (MACFilter.addBlockedMAC s a).2)^[10]
        (MACFilter.init garbageA garbageB)).InBlocked x ↔ x = a)) ∧
    ((∀ k, k < 20 →
        (((fun s => (PacketInspector.addBlockedPort s port).2)^[k]
          (PacketInspector.init garbageP)).addBlockedPort port).1 = true) ∧
      ((fun s => (PacketInspector.addBlockedPort s port).2)^[20]
        (PacketInspector.init garbageP)).blockedPortCount = 20 ∧
      (∀ q, (((fun s => (PacketInspector.addBlockedPort s port).2)^[20]
        (PacketInspector.init garbageP)).addBlockedPort q).1 = false) ∧
      (∀ x, ((fun s => (PacketInspector.addBlockedPort s port).2)^[20]
        (PacketInspector.init garbageP)).InBlockedPorts x ↔ x = port)) := by
  have hA := MACFilter.iterate_addAllowedMAC a (MACFilter.init garbageA garbageB) rfl
  have hB := MACFilter.iterate_addBlockedMAC a (MACFilter.init garbageA garbageB) rfl
  have hP := PacketInspector.iterate_addBlockedPort port (PacketInspector.init garbageP) rfl
  have stepA : ∀ (t : MACFilter) (b : MAC),
      (t.allowedCount < 10 → (t.addAllowedMAC b).1 = true) ∧
      (10 ≤ t.allowedCount → (t.addAllowedMAC b).1 = false) := by
    intro t b
    unfold MACFilter.addAllowedMAC MAX_ALLOWED_MACS
    constructor
    · intro h
      rw [if_neg (by omega)]
    · intro h
      rw [if_pos h]
  have stepB : ∀ (t : MACFilter) (b : MAC),
      (t.blockedCount < 10 → (t.addBlockedMAC b).1 = true) ∧
      (10 ≤ t.blockedCount → (t.addBlockedMAC b).1 = false) := by
    intro t b
    unfold MACFilter.addBlockedMAC MAX_BLOCKED_MACS
    constructor
    · intro h
      rw [if_neg (by omega)]
    · intro h
      rw [if_pos h]
  have stepP : ∀ (t : PacketInspector) (q : Nat),
      (t.blockedPortCount < 20 → (t.addBlockedPort q).1 = true) ∧
      (20 ≤ t.blockedPortCount → (t.addBlockedPort q).1 = false) := by
    intro t q
    unfold PacketInspector.addBlockedPort
    constructor
    · intro h
      rw [if_neg (by omega)]
    · intro h
      rw [if_pos h]
  refine ⟨⟨?_, (hA 10 (by omega)).1, ?_, ?_⟩, ⟨?_, (hB 10 (by omega)).1, ?_, ?_⟩,
    ⟨?_, (hP 20 (by omega)).1, ?_, ?_⟩⟩
  · intro k hk
    exact (stepA _ a).1 (by rw [(hA k (by omega)).1]; exact hk)
  · intro b
    exact (stepA _ b).2 (by rw [(hA 10 (by omega)).1])
  · intro x
    unfold MACFilter.InAllowed
    rw [(hA 10 (by omega)).1]
    constructor
    · rintro ⟨i, hi, hx⟩
      rw [← hx, (hA 10 (by omega)).2 i hi]
    · intro hx
      exact ⟨0, by omega, by rw [hx, (hA 10 (by omega)).2 0 (by omega)]⟩
  · intro k hk
    exact (stepB _ a).1 (by rw [(hB k (by omega)).1]; exact hk)
  · intro b
    exact (stepB _ b).2 (by rw [(hB 10 (by omega)).1])
  · intro x
    unfold MACFilter.InBlocked
    rw [(hB 10 (by omega)).1]
    constructor
    · rintro ⟨i, hi, hx⟩
      rw [← hx, (hB 10 (by omega)).2 i hi]
    · intro hx
      exact ⟨0, by omega, by rw [hx, (hB 10 (by omega)).2 0 (by omega)]⟩
  · intro k hk
    exact (stepP _ port).1 (by rw [(hP k (by omega)).1]; exact hk)
  · intro q
    exact (stepP _ q).2 (by rw [(hP 20 (by omega)).1])
  · intro x
    unfold PacketInspector.InBlockedPorts
    rw [(hP 20 (by omega)).1]
    constructor
    · rintro ⟨i, hi, hx⟩
      rw [← hx, (hP 20 (by omega)).2 i hi]
    · intro hx
      exact ⟨0, by omega, by rw [hx, (hP 20 (by omega)).2 0 (by omega)]⟩

/-- Witness for C19: ten insertions of `macA`, and twenty of port 22, fill the lists; the
next insertion of another value is refused. -/
theorem capacity_counts_insertions_witness :
    (((fun s => (MACFilter.addAllowedMAC s macA).2)^[10]
        (MACFilter.init zeroMACs zeroMACs)).addAllowedMAC macB).1 = false ∧
      (((fun s => (PacketInspector.addBlockedPort s 22).2)^[20]
        (PacketInspector.init (fun _ => 0))).addBlockedPort 80).1 = false :=
  ⟨(capacity_counts_insertions macA zeroMACs zeroMACs 22 (fun _ => 0)).1.2.2.1 macB,
    (capacity_counts_insertions macA zeroMACs zeroMACs 22 (fun _ => 0)).2.2.2.2.1 80⟩

/-! ## Cipher layer: block structure -/

theorem blockAt_append_zero (A R : List Byte) (hA : A.length = 16) :
    blockAt (A ++ R) 0 = A := by
  unfold blockAt
  rw [Nat.mul_zero, List.drop_zero]
  exact List.take_left' hA

theorem blockAt_append_succ (A R : List Byte) (j : Nat) (hA : A.length = 16) :
    blockAt (A ++ R) (j + 1) = blockAt R j := by
  unfold blockAt
  have e : 16 * (j + 1) = A.length + 16 * j := by omega
  rw [e, List.drop_append]

theorem blockAt_drop (r : List Byte) (j : Nat) :
    blockAt (r.drop 16) j = blockAt r (j + 1) := by
  unfold blockAt
  rw [List.drop_drop]
  congr 2
  omega

/-- Block `j` of a block-wise image is the image of block `j`, taken on its own. -/
theorem mapChunks_blockAt (f : Block → Block) :
    ∀ (m : Nat) (r : List Byte) (j : Nat) (b : Block), 16 * m ≤ r.length → j < m →
      b.val = blockAt r j → blockAt (mapChunks f m r) j = (f b).val := by
  intro m
  induction m with
  | zero =>
    intro r j b _ hj
    omega
  | succ m ih =>
    intro r j b hlen hj hb
    have h16 : 16 ≤ r.length := by omega
    rw [mapChunks_succ f m r h16]
    cases j with
    | zero =>
      rw [blockAt_append_zero _ _ (Block.length_val _)]
      have hb0 : b = ⟨r.take 16, by rw [List.length_take]; omega⟩ := by
        apply Subtype.ext
        rw [hb]
        unfold blockAt
        rw [Nat.mul_zero, List.drop_zero]
      rw [hb0]
    | succ j =>
      rw [blockAt_append_succ _ _ j (Block.length_val _)]
      exact ih (r.drop 16) j b (by rw [List.length_drop]; omega) (by omega)
        (by rw [hb, blockAt_drop])

/-- A block-wise image over `m` blocks keeps everything from offset `16 * m` on. -/
theorem mapChunks_drop (f : Block → Block) :
    ∀ (m : Nat) (r : List Byte), 16 * m ≤ r.length →
      (mapChunks f m r).drop (16 * m) = r.drop (16 * m) := by
  intro m
  induction m with
  | zero =>
    intro r _
    rfl
  | succ m ih =>
    intro r hlen
    have h16 : 16 ≤ r.length := by omega
    rw [mapChunks_succ f m r h16]
    have e : 16 * (m + 1) = (f ⟨r.take 16, by rw [List.length_take]; omega⟩).val.length +
        16 * m := by
      rw [Block.length_val]
      omega
    rw [e, List.drop_append, ih (r.drop 16) (by rw [List.length_drop]; omega),
      List.drop_drop, Block.length_val]

/-- C14: on an enabled context, for `0 ≤ length ≤ 2^31 - 16` and a buffer of at least `P`
bytes, `P` the least multiple of 16 not below `length`: the padded length that
`encryptPacket` computes and runs its loop up to is `P`; the call returns true; each of the
`P / 16` blocks of the buffer is replaced by the block encryption of that same input block
alone, so equal input blocks give equal output blocks; every byte at an index from `P` on is
unchanged. -/
theorem encryptPacket_blockwise (L : AesLibrary) (s : VPNEncryption L) (packet : List Byte)
    (length : Int) (P : Nat) (he : s.enabled = true) (h0 : 0 ≤ length)
    (h1 : length ≤ 2147483632) (hP16 : P % 16 = 0) (hPge : length ≤ P)
    (hPleast : ∀ Q : Nat, Q % 16 = 0 → length ≤ Q → P ≤ Q) (hbuf : P ≤ packet.length) :
    VPNEncryption.paddedLen length = P ∧
    s.encryptPacket packet length =
      (VPNEncryption.cryptLoop L s.aes_ctx .MBEDTLS_AES_ENCRYPT
        (VPNEncryption.paddedLen length) (packet.length / 16 + 1) 0 packet).map
        (fun p => (true, p)) ∧
    ∃ out, s.encryptPacket packet length = some (true, out) ∧
      out.length = packet.length ∧
      (∀ (j : Nat) (b : Block), j < P / 16 → b.val = blockAt packet j →
        blockAt out j = (L.mbedtls_aes_crypt_ecb s.aes_ctx .MBEDTLS_AES_ENCRYPT b).val) ∧
      (∀ j k : Nat, j < P / 16 → k < P / 16 → blockAt packet j = blockAt packet k →
        blockAt out j = blockAt out k) ∧
      (∀ i : Nat, P ≤ i → out[i]? = packet[i]?) := by
  have hn : ((length.toNat : Nat) : Int) = length := Int.toNat_of_nonneg h0
  have hPm : P = 16 * ((length.toNat + 15) / 16) := by
    have hle := hPleast (16 * ((length.toNat + 15) / 16)) (by omega) (by omega)
    omega
  have hpad : VPNEncryption.paddedLen length = P := by
    unfold VPNEncryption.paddedLen
    rw [wrapInt32_eq_self _ (by omega) (by omega), Int.tdiv_eq_ediv (by omega) (by omega)]
    omega
  have hchunks := VPNEncryption.encryptPacket_chunks s packet length.toNat he (by omega)
    (by omega)
  rw [hn] at hchunks
  have hdiv : P / 16 = (length.toNat + 15) / 16 := by omega
  have hblock : ∀ (j : Nat) (b : Block), j < P / 16 → b.val = blockAt packet j →
      blockAt (mapChunks (L.mbedtls_aes_crypt_ecb s.aes_ctx .MBEDTLS_AES_ENCRYPT)
        ((length.toNat + 15) / 16) packet) j =
        (L.mbedtls_aes_crypt_ecb s.aes_ctx .MBEDTLS_AES_ENCRYPT b).val := by
    intro j b hj hb
    exact mapChunks_blockAt _ _ packet j b (by omega) (by omega) hb
  have hblen : ∀ j : Nat, j < P / 16 → (blockAt packet j).length = 16 := by
    intro j hj
    unfold blockAt
    rw [List.length_take, List.length_drop]
    omega
  refine ⟨hpad, VPNEncryption.encryptPacket_enabled s packet length he, _, hchunks,
    mapChunks_length _ _ _, hblock, ?_, ?_⟩
  · intro j k hj hk hjk
    rw [hblock j ⟨blockAt packet j, hblen j hj⟩ hj rfl,
      hblock k ⟨blockAt packet j, hblen j hj⟩ hk hjk]
  · intro i hi
    have hd := mapChunks_drop (L.mbedtls_aes_crypt_ecb s.aes_ctx .MBEDTLS_AES_ENCRYPT)
      ((length.toNat + 15) / 16) packet (by omega)
    have hi2 : i = 16 * ((length.toNat + 15) / 16) + (i - P) := by omega
    rw [hi2, ← List.getElem?_drop, ← List.getElem?_drop, hd]

/-- Witness for C14: the keyed sample context encrypts `length = 20` over a 33-byte
buffer whose first two blocks are equal: the output blocks are equal and byte 32 is kept. -/
theorem encryptPacket_blockwise_witness :
    VPNEncryption.paddedLen 20 = 32 ∧
      ∃ out, vpnKeyed.encryptPacket twoBlocksAndOne 20 = some (true, out) ∧
        blockAt out 0 = blockAt out 1 ∧ out[32]? = some 0xAA := by
  obtain ⟨hpad, _, out, hout, _, _, heq, hrest⟩ :=
    encryptPacket_blockwise Mbedtls.library vpnKeyed twoBlocksAndOne 20 32 rfl (by decide)
      (by decide) (by decide) (by decide) (fun Q hQ hge => by omega) (by decide)
  exact ⟨hpad, out, hout, heq 0 1 (by decide) (by decide) (by decide),
    (hrest 32 (by decide)).trans (by decide)⟩

/-- C20: on an enabled context, for `0 ≤ length ≤ 2^31 - 16`, `m` the number of 16-byte
blocks that cover `length` and a buffer of at least `16 * m` bytes, `encryptPacket` and
`decryptPacket` both return true after transforming the same `m` blocks, each block on its
own, and keep everything from offset `16 * m` on. When `length` is not a multiple of 16 the
last block, which `decryptPacket` rewrites too, reaches past `length`; for `length = 0` both
leave the buffer as it is. -/
theorem decryptPacket_same_blocks (L : AesLibrary) (s : VPNEncryption L) (packet : List Byte)
    (length : Int) (m : Nat) (he : s.enabled = true) (h0 : 0 ≤ length)
    (h1 : length ≤ 2147483632) (hm : length ≤ 16 * (m : Int))
    (hm1 : 16 * (m : Int) < length + 16) (hbuf : 16 * m ≤ packet.length) :
    s.encryptPacket packet length =
      some (true, mapChunks (L.mbedtls_aes_crypt_ecb s.aes_ctx .MBEDTLS_AES_ENCRYPT) m packet) ∧
    s.decryptPacket packet length =
      some (true, mapChunks (L.mbedtls_aes_crypt_ecb s.aes_ctx .MBEDTLS_AES_DECRYPT) m packet) ∧
    (∀ (mode : AesMode) (j : Nat) (b : Block), j < m → b.val = blockAt packet j →
      blockAt (mapChunks (L.mbedtls_aes_crypt_ecb s.aes_ctx mode) m packet) j =
        (L.mbedtls_aes_crypt_ecb s.aes_ctx mode b).val) ∧
    (∀ mode : AesMode,
      (mapChunks (L.mbedtls_aes_crypt_ecb s.aes_ctx mode) m packet).drop (16 * m) =
        packet.drop (16 * m)) ∧
    (length % 16 ≠ 0 → 0 < m ∧ 16 * ((m : Int) - 1) < length ∧ length < 16 * (m : Int)) ∧
    (length = 0 → s.encryptPacket packet length = some (true, packet) ∧
      s.decryptPacket packet length = some (true, packet)) := by
  have hn : ((length.toNat : Nat) : Int) = length := Int.toNat_of_nonneg h0
  have hmeq : (length.toNat + 15) / 16 = m := by omega
  have henc := VPNEncryption.encryptPacket_chunks s packet length.toNat he (by omega)
    (by omega)
  have hdec := VPNEncryption.decryptPacket_chunks s packet length.toNat he (by omega)
    (by omega)
  rw [hn, hmeq] at henc hdec
  refine ⟨henc, hdec, ?_, ?_, ?_, ?_⟩
  · intro mode j b hj hb
    exact mapChunks_blockAt _ m packet j b hbuf hj hb
  · intro mode
    exact mapChunks_drop _ m packet hbuf
  · intro hne
    omega
  · intro hz
    have hm0 : m = 0 := by omega
    rw [hm0] at henc hdec
    exact ⟨henc, hdec⟩

/-- Witness for C20: with `length = 17` over two copies of the FIPS-197 ciphertext block,
`decryptPacket` on the keyed sample context rewrites both blocks, bytes 17 to 31
included. -/
theorem decryptPacket_same_blocks_witness :
    vpnKeyed.decryptPacket (fipsCipher ++ fipsCipher) 17 =
      some (true, fipsScrambled ++ fipsScrambled) := by
  have h := (decryptPacket_same_blocks Mbedtls.library vpnKeyed (fipsCipher ++ fipsCipher) 17 2
    rfl (by decide) (by decide) (by decide) (by decide) (by decide)).2.1
  rw [h]
  decide!

/-! ## Cipher layer: round trip -/

end NIC
